import Mathlib

/-!
Verification of the room-scoped broadcast engine of a real-time collaborative
whiteboard server (src/server.js).

The server keeps three maps keyed by room id: the member connections of each
room, the usernames of each room, and the per-room drawing history.  Each
connection has closure-local session state (its current room and username).
The message handler parses an inbound message and dispatches on its type
field; a parse failure or a missing type is caught and answered with a
generic error envelope.

The embedding below mirrors the source function by function: JS Maps become
association lists, JS Sets become insertion-ordered duplicate-free lists,
the per-connection closure variables become a session record stored per
connection id, and every ws.send becomes an append to an outbound log of
(recipient, envelope) pairs.
-/

namespace Whiteboard

abbrev ConnId := Nat
abbrev RoomId := String

/-- JS truthiness of a string variable that may be undefined: undefined and
the empty string are falsy, every other string truthy. -/
def truthyS : Option String → Bool
  | none => false
  | some s => !s.isEmpty

/-- JS string interpolation of a variable that may be undefined. -/
def jsStr : Option String → String
  | none => "undefined"
  | some s => s

/-- JS Map.get on an association list. -/
def aget {κ α : Type} [DecidableEq κ] : List (κ × α) → κ → Option α
  | [], _ => none
  | (k, v) :: m, k' => if k = k' then some v else aget m k'

/-- JS Map.has. -/
def ahas {κ α : Type} [DecidableEq κ] (m : List (κ × α)) (k : κ) : Bool :=
  (aget m k).isSome

/-- JS Map.set: update the existing binding in place, otherwise append. -/
def aset {κ α : Type} [DecidableEq κ] : List (κ × α) → κ → α → List (κ × α)
  | [], k, v => [(k, v)]
  | (k₀, v₀) :: m, k, v => if k₀ = k then (k, v) :: m else (k₀, v₀) :: aset m k v

/-- JS Map.delete. -/
def adel {κ α : Type} [DecidableEq κ] : List (κ × α) → κ → List (κ × α)
  | [], _ => []
  | (k₀, v₀) :: m, k => if k₀ = k then adel m k else (k₀, v₀) :: adel m k

/-- JS Map.get through a key variable that may be undefined
(Map.get(undefined) and Map.has(undefined) find nothing). -/
def mget {α : Type} (m : List (RoomId × α)) : Option RoomId → Option α
  | none => none
  | some r => aget m r

/-- JS Set.add: insertion order kept, duplicates ignored. -/
def sadd {α : Type} [DecidableEq α] (s : List α) (x : α) : List α :=
  if x ∈ s then s else s ++ [x]

/-- An inbound message object after JSON.parse: exactly the fields the server
reads, plus an opaque payload standing for the drawing-geometry fields that
are stored and forwarded verbatim. -/
structure Data where
  type : Option String
  roomId : Option String
  username : Option String
  text : Option String
  payload : String
deriving DecidableEq, Repr

/-- The outbound envelopes built by the server, field for field.  The two
error shapes differ in the source: the catch block and handleCreateRoom use
a message field, handleJoinRoom uses a msg field. -/
inductive OutMsg where
  | error (message : String)
  | errorAlt (msg : String)
  | roomAlreadyExist (roomId : String) (msg : String)
  | noRoom (msg : String)
  | userJoined (drawings : List Data) (users : List String) (username : String)
      (roomId : String) (userCount : Nat) (message : String)
  | userLeft (users : List String) (username : Option String) (roomId : String)
      (userCount : Nat) (message : String)
  | chat (username : Option String) (text : Option String) (timestamp : Nat)
  | raw (d : Data)
deriving DecidableEq, Repr

/-- The closure-local variables of one connection handler:
currentRoom and usernameServer. -/
structure Sess where
  currentRoom : Option RoomId
  username : Option String
deriving DecidableEq, Repr

/-- The whole server state: the three room-keyed maps, the per-connection
sessions, which connections are OPEN, the log of performed sends, and the
ambient clock read by Date.now(). -/
structure World where
  rooms : List (RoomId × List ConnId)
  users : List (RoomId × List String)
  drawings : List (RoomId × List Data)
  sess : List (ConnId × Sess)
  openConns : List ConnId
  out : List (ConnId × OutMsg)
  now : Nat
deriving Repr

def World.init : World := ⟨[], [], [], [], [], [], 0⟩

/-- ws.send to a single connection. -/
def sendTo (w : World) (c : ConnId) (msg : OutMsg) : World :=
  { w with out := w.out ++ [(c, msg)] }

/-- broadcastToRoom: send to every member of the room whose connection is
currently OPEN. -/
def broadcastToRoom (w : World) (currentRoom : RoomId) (data : OutMsg) : World :=
  match aget w.rooms currentRoom with
  | none => w
  | some roomWs =>
      let recips := roomWs.filter (fun cl => w.openConns.contains cl)
      { w with out := w.out ++ recips.map (fun cl => (cl, data)) }

/-- broadcastToRoomExcept: as broadcastToRoom but also skipping excludeWs. -/
def broadcastToRoomExcept (w : World) (currentRoom : Option RoomId)
    (excludeWs : ConnId) (data : OutMsg) : World :=
  match mget w.rooms currentRoom with
  | none => w
  | some roomWs =>
      let recips := roomWs.filter (fun cl => cl != excludeWs && w.openConns.contains cl)
      { w with out := w.out ++ recips.map (fun cl => (cl, data)) }

/-- addUserToRoom: add the connection to the member set and the username to
the user set, then broadcast user_joined (history, user list, join message)
to the whole room, the joiner included. -/
def addUserToRoom (w : World) (ws : ConnId) (currentRoom : RoomId)
    (usernameServer : String) : World :=
  let roomWs := (aget w.rooms currentRoom).getD []
  let roomWs' := sadd roomWs ws
  let roomUsers := (aget w.users currentRoom).getD []
  let roomUsers' := sadd roomUsers usernameServer
  let w1 := { w with rooms := aset w.rooms currentRoom roomWs',
                     users := aset w.users currentRoom roomUsers' }
  broadcastToRoom w1 currentRoom
    (.userJoined ((aget w1.drawings currentRoom).getD []) roomUsers' usernameServer
      currentRoom roomWs'.length
      (usernameServer ++ " joined the room: " ++ currentRoom))

/-- JS Set.delete with a value that may be undefined (deleting undefined is
a no-op on a set of strings). -/
def eraseUserOpt (roomUsers : List String) : Option String → List String
  | none => roomUsers
  | some u => roomUsers.erase u

/-- leaveRoom: remove the connection and its username, then either delete the
room (members and usernames both empty) or broadcast user_left to the
remaining members. -/
def leaveRoom (w : World) (ws : ConnId) (currentRoom : Option RoomId)
    (usernameServer : Option String) : World :=
  match currentRoom with
  | none => w
  | some r =>
    match aget w.rooms r, aget w.users r with
    | some roomWs, some roomUsers =>
        let roomWs' := roomWs.erase ws
        let roomUsers' := eraseUserOpt roomUsers usernameServer
        if roomWs'.length = 0 ∧ roomUsers'.length = 0 then
          { w with rooms := adel w.rooms r, users := adel w.users r,
                   drawings := adel w.drawings r }
        else
          broadcastToRoomExcept
            { w with rooms := aset w.rooms r roomWs',
                     users := aset w.users r roomUsers' }
            (some r) ws
            (.userLeft roomUsers' usernameServer r roomWs'.length
              (jsStr usernameServer ++ " left the room"))
    | _, _ => w

/-- handleCreateRoom: reject a missing or empty room id or username; create
the room (empty member set, empty user set, empty history) and join it when
the id is fresh; otherwise answer room_already_exist to the requester only. -/
def handleCreateRoom (w : World) (ws : ConnId) (currentRoom : Option RoomId)
    (usernameServer : Option String) : World :=
  match currentRoom, usernameServer with
  | some r, some u =>
    if r.isEmpty || u.isEmpty then
      sendTo w ws (.error "Missing room ID or username")
    else if !(ahas w.rooms r) then
      let w1 := { w with rooms := aset w.rooms r [], users := aset w.users r [],
                         drawings := aset w.drawings r [] }
      addUserToRoom w1 ws r u
    else
      sendTo w ws (.roomAlreadyExist r (r ++ " already existed..."))
  | _, _ => sendTo w ws (.error "Missing room ID or username")

/-- handleJoinRoom: reject a missing or empty room id or username; answer
no_room when the room is absent from the registry; otherwise join. -/
def handleJoinRoom (w : World) (ws : ConnId) (currentRoom : Option RoomId)
    (usernameServer : Option String) : World :=
  match currentRoom, usernameServer with
  | some r, some u =>
    if r.isEmpty || u.isEmpty then
      sendTo w ws (.errorAlt "Missing room ID or username")
    else if !(ahas w.rooms r) then
      sendTo w ws (.noRoom ("Room " ++ r ++ " does not exist"))
    else
      addUserToRoom w ws r u
  | _, _ => sendTo w ws (.errorAlt "Missing room ID or username")

/-- handleDrawing (types start and draw): silently drop when the room has no
history entry; otherwise append the event and broadcast it verbatim to the
other members. -/
def handleDrawing (w : World) (ws : ConnId) (data : Data) :
    Option RoomId → World
  | none => w
  | some r =>
    match aget w.drawings r with
    | none => w
    | some drawing =>
      let w1 := if truthyS data.type then
          { w with drawings := aset w.drawings r (drawing ++ [data]) }
        else w
      broadcastToRoomExcept w1 (some r) ws (.raw data)

/-- handleShape (types text, rectangle, circle, clear): silently drop when
the room has no history entry; store the shape, or reset the history on
clear; broadcast verbatim to the other members. -/
def handleShape (w : World) (ws : ConnId) (data : Data) :
    Option RoomId → World
  | none => w
  | some r =>
    match aget w.drawings r with
    | none => w
    | some drawing =>
      let w1 := if data.type ≠ some "clear" then
          { w with drawings := aset w.drawings r (drawing ++ [data]) }
        else
          { w with drawings := aset w.drawings r [] }
      broadcastToRoomExcept w1 (some r) ws (.raw data)

/-- The session of a connection (fresh connections start with both closure
variables undefined). -/
def sessOf (w : World) (c : ConnId) : Sess := (aget w.sess c).getD ⟨none, none⟩

def setSess (w : World) (c : ConnId) (s : Sess) : World :=
  { w with sess := aset w.sess c s }

/-- An inbound frame: either unparsable JSON or a parsed object. -/
inductive InMsg where
  | malformed
  | parsed (d : Data)
deriving DecidableEq, Repr

/-- The ws message handler: catch parse failures and a missing type with a
generic error reply, otherwise dispatch on the type field exactly as the
switch in src/server.js does (note that the chat, drawing and shape cases
overwrite the closure variable currentRoom with data.roomId). -/
def onMessage (w : World) (c : ConnId) (m : InMsg) : World :=
  match m with
  | .malformed => sendTo w c (.error "Invalid data format")
  | .parsed data =>
    if !truthyS data.type then sendTo w c (.error "Invalid data format")
    else
      let s := sessOf w c
      if data.type == some "create_room" then
        let w1 := if truthyS s.currentRoom then
            leaveRoom w c s.currentRoom s.username else w
        let s1 := if truthyS data.roomId && truthyS data.username then
            Sess.mk data.roomId data.username else s
        setSess (handleCreateRoom w1 c s1.currentRoom s1.username) c s1
      else if data.type == some "join_room" then
        let w1 := if truthyS s.currentRoom then
            leaveRoom w c s.currentRoom s.username else w
        let s1 := if truthyS data.roomId && truthyS data.username then
            Sess.mk data.roomId data.username else s
        setSess (handleJoinRoom w1 c s1.currentRoom s1.username) c s1
      else if data.type == some "chat" then
        let s1 := Sess.mk data.roomId s.username
        setSess (broadcastToRoomExcept w s1.currentRoom c
          (.chat s.username data.text w.now)) c s1
      else if data.type == some "start" || data.type == some "draw" then
        let s1 := Sess.mk data.roomId s.username
        setSess (handleDrawing w c data s1.currentRoom) c s1
      else if data.type == some "text" || data.type == some "rectangle"
          || data.type == some "circle" || data.type == some "clear" then
        let s1 := Sess.mk data.roomId s.username
        setSess (handleShape w c data s1.currentRoom) c s1
      else w

/-- Connection establishment: fresh closure variables, socket OPEN. -/
def onConnect (w : World) (c : ConnId) : World :=
  { w with sess := aset w.sess c ⟨none, none⟩, openConns := sadd w.openConns c }

/-- The ws close handler: leave the current room if one is set; the closure
state dies with the connection and the socket stops being OPEN. -/
def onClose (w : World) (c : ConnId) : World :=
  let s := sessOf w c
  let w1 := if truthyS s.currentRoom then
      leaveRoom w c s.currentRoom s.username else w
  { w1 with sess := adel w1.sess c, openConns := w1.openConns.erase c }

/-- One lifecycle or message event delivered by the event loop. -/
inductive Event where
  | connect (c : ConnId)
  | msg (c : ConnId) (m : InMsg)
  | close (c : ConnId)
deriving DecidableEq, Repr

def step (w : World) : Event → World
  | .connect c => onConnect w c
  | .msg c m => onMessage w c m
  | .close c => onClose w c

/-- Run a sequence of events through the single-threaded event loop. -/
def run (w : World) (tr : List Event) : World := tr.foldl step w

/-- Connection c is in the member set of room r. -/
def memberOf (w : World) (c : ConnId) (r : RoomId) : Prop :=
  ∃ ms, aget w.rooms r = some ms ∧ c ∈ ms

/-- Connection c is a member of at most one room of the registry. -/
def inAtMostOneRoom (w : World) (c : ConnId) : Prop :=
  ∀ r₁ r₂, memberOf w c r₁ → memberOf w c r₂ → r₁ = r₂

/-- The stored drawing history of a room (empty when the room is absent). -/
def histOf (w : World) (r : RoomId) : List Data :=
  (aget w.drawings r).getD []

/-- The message types the switch in the message handler dispatches on. -/
def knownTypes : List String :=
  ["create_room", "join_room", "chat", "start", "draw", "text", "rectangle", "circle", "clear"]

/-- Key synchronization of the rooms, users and drawings maps. -/
def Sync (w : World) : Prop :=
  ∀ k, (ahas w.rooms k = ahas w.users k) ∧ (ahas w.rooms k = ahas w.drawings k)

/-- The message types that reach the drawing-history handlers. -/
def drawTypes : List String := ["start", "draw", "text", "rectangle", "circle", "clear"]

/-- The drawing event a given lifecycle event contributes to room r's
history: a parsed message of a drawing type whose roomId names r. -/
def isDrawFor (r : RoomId) : Event → Option Data
  | .msg _ (.parsed d) =>
    match d.type with
    | some s => if s ∈ drawTypes ∧ d.roomId = some r then some d else none
    | none => none
  | _ => none

/-- How one drawing event rewrites a history: clear resets, anything else
appends. -/
def histStep (acc : List Data) (d : Data) : List Data :=
  if d.type = some "clear" then [] else acc ++ [d]

/-- The drawing events a trace contributes to room r, in arrival order. -/
def drawMsgsFor (tr : List Event) (r : RoomId) : List Data :=
  tr.filterMap (isDrawFor r)

/-- The event is not a create_room message (create_room may delete and
re-create a room within one handler run, restarting its history). -/
def noCreateB : Event → Bool
  | .msg _ (.parsed d) => !(d.type == some "create_room")
  | _ => true

/-- Room r is present in the registry before and after every event of the
trace. -/
def presentThroughout (w : World) (r : RoomId) : List Event → Bool
  | [] => ahas w.rooms r
  | e :: tr => ahas w.rooms r && presentThroughout (step w e) r tr

/-- The event is a connection lifecycle event or a create_room/join_room
message: the room-management subset of the protocol. -/
def roomEvent : Event → Bool
  | .connect _ => true
  | .close _ => true
  | .msg _ .malformed => false
  | .msg _ (.parsed d) => d.type == some "create_room" || d.type == some "join_room"

/-- Well-formed traces, as the transport layer guarantees them: a connect
introduces a fresh connection identifier, and message and close events come
only from currently live connections. -/
def wfAux : List ConnId → List ConnId → List Event → Bool
  | _, _, [] => true
  | live, used, .connect c :: tr =>
      !used.contains c && wfAux (c :: live) (c :: used) tr
  | live, used, .msg c _ :: tr => live.contains c && wfAux live used tr
  | live, used, .close c :: tr => live.contains c && wfAux (live.erase c) used tr

/-- The inductive invariant behind the single-room property: every member of
a registered room is a live connection whose session points at exactly that
room; registered room ids are truthy; member sets are duplicate-free; the
rooms and users maps hold the same keys. -/
structure Inv (live used : List ConnId) (w : World) : Prop where
  mem_live : ∀ r ms c, aget w.rooms r = some ms → c ∈ ms → c ∈ live
  mem_cur : ∀ r ms c, aget w.rooms r = some ms → c ∈ ms →
    (sessOf w c).currentRoom = some r
  room_ne : ∀ r ms, aget w.rooms r = some ms → r.isEmpty = false
  mem_nodup : ∀ r ms, aget w.rooms r = some ms → ms.Nodup
  syncw : Sync w
  live_sub : ∀ c, c ∈ live → c ∈ used

/-! ### Association-list and set laws -/

theorem aget_aset {κ α : Type} [DecidableEq κ] (m : List (κ × α)) (k k' : κ) (v : α) :
    aget (aset m k v) k' = if k = k' then some v else aget m k' := by
  induction m with
  | nil => simp [aget, aset]
  | cons p m ih =>
    obtain ⟨k₀, v₀⟩ := p
    by_cases h₀ : k₀ = k
    · subst h₀
      by_cases h₁ : k₀ = k'
      · subst h₁; simp [aget, aset]
      · simp [aget, aset, h₁]
    · by_cases h₁ : k₀ = k'
      · subst h₁
        have : k ≠ k₀ := fun h => h₀ h.symm
        simp [aget, aset, h₀, this]
      · simp [aget, aset, h₀, h₁, ih]

theorem aget_aset_self {κ α : Type} [DecidableEq κ] (m : List (κ × α)) (k : κ) (v : α) :
    aget (aset m k v) k = some v := by simp [aget_aset]

theorem aget_aset_ne {κ α : Type} [DecidableEq κ] (m : List (κ × α)) {k k' : κ} (v : α)
    (h : k ≠ k') : aget (aset m k v) k' = aget m k' := by simp [aget_aset, h]

theorem aget_adel {κ α : Type} [DecidableEq κ] (m : List (κ × α)) (k k' : κ) :
    aget (adel m k) k' = if k = k' then none else aget m k' := by
  induction m with
  | nil => simp [aget, adel]
  | cons p m ih =>
    obtain ⟨k₀, v₀⟩ := p
    by_cases h₀ : k₀ = k
    · subst h₀
      by_cases h₁ : k₀ = k'
      · subst h₁; simp [adel, ih]
      · simp [adel, aget, ih, h₁]
    · by_cases h₁ : k₀ = k'
      · subst h₁
        have : k ≠ k₀ := fun h => h₀ h.symm
        simp [aget, adel, h₀, this]
      · simp [aget, adel, h₀, h₁, ih]

theorem ahas_iff {κ α : Type} [DecidableEq κ] (m : List (κ × α)) (k : κ) :
    ahas m k = true ↔ ∃ v, aget m k = some v := by
  simp [ahas, Option.isSome_iff_exists]

theorem mem_sadd {α : Type} [DecidableEq α] (s : List α) (x y : α) :
    y ∈ sadd s x ↔ y ∈ s ∨ y = x := by
  by_cases h : x ∈ s
  · simp only [sadd, if_pos h]
    constructor
    · exact Or.inl
    · rintro (hy | rfl) <;> [exact hy; exact h]
  · simp [sadd, if_neg h]

theorem sadd_nodup {α : Type} [DecidableEq α] (s : List α) (x : α) (h : s.Nodup) :
    (sadd s x).Nodup := by
  by_cases hx : x ∈ s
  · simpa [sadd, hx] using h
  · simp only [sadd, if_neg hx]
    exact List.Nodup.append h (List.nodup_singleton x) (by simpa using hx)

theorem self_mem_sadd {α : Type} [DecidableEq α] (s : List α) (x : α) : x ∈ sadd s x := by
  simp [mem_sadd]

/-! ### Component-effect lemmas: which parts of the world each operation
touches.  Every send only appends to the outbound log. -/

theorem sendTo_rooms (w : World) (c : ConnId) (m : OutMsg) : (sendTo w c m).rooms = w.rooms := rfl
theorem sendTo_users (w : World) (c : ConnId) (m : OutMsg) : (sendTo w c m).users = w.users := rfl
theorem sendTo_drawings (w : World) (c : ConnId) (m : OutMsg) :
    (sendTo w c m).drawings = w.drawings := rfl
theorem sendTo_sess (w : World) (c : ConnId) (m : OutMsg) : (sendTo w c m).sess = w.sess := rfl
theorem sendTo_open (w : World) (c : ConnId) (m : OutMsg) :
    (sendTo w c m).openConns = w.openConns := rfl
theorem sendTo_out (w : World) (c : ConnId) (m : OutMsg) :
    (sendTo w c m).out = w.out ++ [(c, m)] := rfl

theorem bct_rooms (w : World) (r : RoomId) (d : OutMsg) :
    (broadcastToRoom w r d).rooms = w.rooms := by
  unfold broadcastToRoom; split <;> rfl

theorem bct_users (w : World) (r : RoomId) (d : OutMsg) :
    (broadcastToRoom w r d).users = w.users := by
  unfold broadcastToRoom; split <;> rfl

theorem bct_drawings (w : World) (r : RoomId) (d : OutMsg) :
    (broadcastToRoom w r d).drawings = w.drawings := by
  unfold broadcastToRoom; split <;> rfl

theorem bct_sess (w : World) (r : RoomId) (d : OutMsg) :
    (broadcastToRoom w r d).sess = w.sess := by
  unfold broadcastToRoom; split <;> rfl

theorem bct_open (w : World) (r : RoomId) (d : OutMsg) :
    (broadcastToRoom w r d).openConns = w.openConns := by
  unfold broadcastToRoom; split <;> rfl

theorem bct_out (w : World) (r : RoomId) (d : OutMsg) :
    ∃ δ, (broadcastToRoom w r d).out = w.out ++ δ ∧
      ∀ p ∈ δ, p.2 = d ∧ ∃ ms, aget w.rooms r = some ms ∧ p.1 ∈ ms := by
  unfold broadcastToRoom
  split
  · exact ⟨[], by simp⟩
  · rename_i ms hms
    refine ⟨_, rfl, ?_⟩
    intro p hp
    simp only [List.mem_map] at hp
    obtain ⟨cl, hcl, rfl⟩ := hp
    exact ⟨rfl, ms, hms, (List.mem_filter.mp hcl).1⟩

theorem bcx_rooms (w : World) (room : Option RoomId) (c : ConnId) (d : OutMsg) :
    (broadcastToRoomExcept w room c d).rooms = w.rooms := by
  unfold broadcastToRoomExcept; split <;> rfl

theorem bcx_users (w : World) (room : Option RoomId) (c : ConnId) (d : OutMsg) :
    (broadcastToRoomExcept w room c d).users = w.users := by
  unfold broadcastToRoomExcept; split <;> rfl

theorem bcx_drawings (w : World) (room : Option RoomId) (c : ConnId) (d : OutMsg) :
    (broadcastToRoomExcept w room c d).drawings = w.drawings := by
  unfold broadcastToRoomExcept; split <;> rfl

theorem bcx_sess (w : World) (room : Option RoomId) (c : ConnId) (d : OutMsg) :
    (broadcastToRoomExcept w room c d).sess = w.sess := by
  unfold broadcastToRoomExcept; split <;> rfl

theorem bcx_open (w : World) (room : Option RoomId) (c : ConnId) (d : OutMsg) :
    (broadcastToRoomExcept w room c d).openConns = w.openConns := by
  unfold broadcastToRoomExcept; split <;> rfl

theorem bcx_out (w : World) (room : Option RoomId) (c : ConnId) (d : OutMsg) :
    ∃ δ, (broadcastToRoomExcept w room c d).out = w.out ++ δ ∧
      ∀ p ∈ δ, p.2 = d ∧ p.1 ≠ c ∧ ∃ ms, mget w.rooms room = some ms ∧ p.1 ∈ ms := by
  unfold broadcastToRoomExcept
  split
  · exact ⟨[], by simp⟩
  · rename_i ms hms
    refine ⟨_, rfl, ?_⟩
    intro p hp
    simp only [List.mem_map] at hp
    obtain ⟨cl, hcl, rfl⟩ := hp
    have hf := List.mem_filter.mp hcl
    have hne : cl ≠ c := by
      have := hf.2
      simp only [Bool.and_eq_true, bne_iff_ne, ne_eq] at this
      exact this.1
    exact ⟨rfl, hne, ms, hms, hf.1⟩

theorem addUser_rooms (w : World) (c : ConnId) (r : RoomId) (u : String) :
    (addUserToRoom w c r u).rooms = aset w.rooms r (sadd ((aget w.rooms r).getD []) c) := by
  unfold addUserToRoom
  rw [bct_rooms]

theorem addUser_users (w : World) (c : ConnId) (r : RoomId) (u : String) :
    (addUserToRoom w c r u).users = aset w.users r (sadd ((aget w.users r).getD []) u) := by
  unfold addUserToRoom
  rw [bct_users]

theorem addUser_drawings (w : World) (c : ConnId) (r : RoomId) (u : String) :
    (addUserToRoom w c r u).drawings = w.drawings := by
  unfold addUserToRoom
  rw [bct_drawings]

theorem addUser_sess (w : World) (c : ConnId) (r : RoomId) (u : String) :
    (addUserToRoom w c r u).sess = w.sess := by
  unfold addUserToRoom
  rw [bct_sess]

theorem addUser_open (w : World) (c : ConnId) (r : RoomId) (u : String) :
    (addUserToRoom w c r u).openConns = w.openConns := by
  unfold addUserToRoom
  rw [bct_open]

theorem leave_sess (w : World) (c : ConnId) (cur : Option RoomId) (u : Option String) :
    (leaveRoom w c cur u).sess = w.sess := by
  unfold leaveRoom
  repeat' split
  all_goals try rw [apply_ite World.sess, bcx_sess]
  all_goals simp

theorem leave_open (w : World) (c : ConnId) (cur : Option RoomId) (u : Option String) :
    (leaveRoom w c cur u).openConns = w.openConns := by
  unfold leaveRoom
  repeat' split
  all_goals try rw [apply_ite World.openConns, bcx_open]
  all_goals simp

theorem hcr_sess (w : World) (c : ConnId) (cur : Option RoomId) (u : Option String) :
    (handleCreateRoom w c cur u).sess = w.sess := by
  unfold handleCreateRoom
  repeat' split
  all_goals first | rfl | simp [addUser_sess]

theorem hcr_open (w : World) (c : ConnId) (cur : Option RoomId) (u : Option String) :
    (handleCreateRoom w c cur u).openConns = w.openConns := by
  unfold handleCreateRoom
  repeat' split
  all_goals first | rfl | simp [addUser_open]

theorem hjr_sess (w : World) (c : ConnId) (cur : Option RoomId) (u : Option String) :
    (handleJoinRoom w c cur u).sess = w.sess := by
  unfold handleJoinRoom
  split
  · split
    · rfl
    · split
      · rfl
      · rw [addUser_sess]
  · rfl

theorem hjr_open (w : World) (c : ConnId) (cur : Option RoomId) (u : Option String) :
    (handleJoinRoom w c cur u).openConns = w.openConns := by
  unfold handleJoinRoom
  split
  · split
    · rfl
    · split
      · rfl
      · rw [addUser_open]
  · rfl

theorem hdr_rooms (w : World) (c : ConnId) (d : Data) (cur : Option RoomId) :
    (handleDrawing w c d cur).rooms = w.rooms := by
  unfold handleDrawing
  split
  · rfl
  · split
    · rfl
    · rw [bcx_rooms]; split <;> rfl

theorem hdr_users (w : World) (c : ConnId) (d : Data) (cur : Option RoomId) :
    (handleDrawing w c d cur).users = w.users := by
  unfold handleDrawing
  split
  · rfl
  · split
    · rfl
    · rw [bcx_users]; split <;> rfl

theorem hdr_sess (w : World) (c : ConnId) (d : Data) (cur : Option RoomId) :
    (handleDrawing w c d cur).sess = w.sess := by
  unfold handleDrawing
  split
  · rfl
  · split
    · rfl
    · rw [bcx_sess]; split <;> rfl

theorem hdr_open (w : World) (c : ConnId) (d : Data) (cur : Option RoomId) :
    (handleDrawing w c d cur).openConns = w.openConns := by
  unfold handleDrawing
  split
  · rfl
  · split
    · rfl
    · rw [bcx_open]; split <;> rfl

theorem hsh_rooms (w : World) (c : ConnId) (d : Data) (cur : Option RoomId) :
    (handleShape w c d cur).rooms = w.rooms := by
  unfold handleShape
  split
  · rfl
  · split
    · rfl
    · rw [bcx_rooms]; split <;> rfl

theorem hsh_users (w : World) (c : ConnId) (d : Data) (cur : Option RoomId) :
    (handleShape w c d cur).users = w.users := by
  unfold handleShape
  split
  · rfl
  · split
    · rfl
    · rw [bcx_users]; split <;> rfl

theorem hsh_sess (w : World) (c : ConnId) (d : Data) (cur : Option RoomId) :
    (handleShape w c d cur).sess = w.sess := by
  unfold handleShape
  split
  · rfl
  · split
    · rfl
    · rw [bcx_sess]; split <;> rfl

theorem hsh_open (w : World) (c : ConnId) (d : Data) (cur : Option RoomId) :
    (handleShape w c d cur).openConns = w.openConns := by
  unfold handleShape
  split
  · rfl
  · split
    · rfl
    · rw [bcx_open]; split <;> rfl

theorem ahas_aset {κ α : Type} [DecidableEq κ] (m : List (κ × α)) (k k' : κ) (v : α) :
    ahas (aset m k v) k' = if k = k' then true else ahas m k' := by
  by_cases h : k = k'
  · simp [ahas, h, aget_aset_self]
  · simp [ahas, h, aget_aset_ne _ _ h]

theorem ahas_adel {κ α : Type} [DecidableEq κ] (m : List (κ × α)) (k k' : κ) :
    ahas (adel m k) k' = if k = k' then false else ahas m k' := by
  by_cases h : k = k'
  · simp [ahas, h, aget_adel]
  · simp [ahas, aget_adel, h]

theorem setSess_rooms (w : World) (c : ConnId) (s : Sess) :
    (setSess w c s).rooms = w.rooms := rfl
theorem setSess_users (w : World) (c : ConnId) (s : Sess) :
    (setSess w c s).users = w.users := rfl
theorem setSess_drawings (w : World) (c : ConnId) (s : Sess) :
    (setSess w c s).drawings = w.drawings := rfl
theorem setSess_open (w : World) (c : ConnId) (s : Sess) :
    (setSess w c s).openConns = w.openConns := rfl
theorem setSess_out (w : World) (c : ConnId) (s : Sess) :
    (setSess w c s).out = w.out := rfl

theorem sessOf_setSess (w : World) (c : ConnId) (s : Sess) :
    sessOf (setSess w c s) c = s := by
  simp [sessOf, setSess, aget_aset_self]

theorem sessOf_setSess_ne (w : World) {c c' : ConnId} (s : Sess) (h : c ≠ c') :
    sessOf (setSess w c s) c' = sessOf w c' := by
  simp [sessOf, setSess, aget_aset_ne _ _ h]

/-! ### Dispatch lemmas: how onMessage reduces for each message type. -/

theorem onMessage_create (w : World) (c : ConnId) (d : Data)
    (h : d.type = some "create_room") :
    onMessage w c (.parsed d) =
      (let s := sessOf w c
       let w1 := if truthyS s.currentRoom then leaveRoom w c s.currentRoom s.username else w
       let s1 := if truthyS d.roomId && truthyS d.username then
           Sess.mk d.roomId d.username else s
       setSess (handleCreateRoom w1 c s1.currentRoom s1.username) c s1) := by
  simp only [onMessage, h]
  rfl

theorem onMessage_join (w : World) (c : ConnId) (d : Data)
    (h : d.type = some "join_room") :
    onMessage w c (.parsed d) =
      (let s := sessOf w c
       let w1 := if truthyS s.currentRoom then leaveRoom w c s.currentRoom s.username else w
       let s1 := if truthyS d.roomId && truthyS d.username then
           Sess.mk d.roomId d.username else s
       setSess (handleJoinRoom w1 c s1.currentRoom s1.username) c s1) := by
  simp only [onMessage, h]
  rfl

theorem onMessage_chat (w : World) (c : ConnId) (d : Data)
    (h : d.type = some "chat") :
    onMessage w c (.parsed d) =
      setSess (broadcastToRoomExcept w d.roomId c
          (.chat (sessOf w c).username d.text w.now)) c
        (Sess.mk d.roomId (sessOf w c).username) := by
  simp only [onMessage, h]
  rfl

theorem onMessage_drawing (w : World) (c : ConnId) (d : Data)
    (h : d.type = some "start" ∨ d.type = some "draw") :
    onMessage w c (.parsed d) =
      setSess (handleDrawing w c d d.roomId) c
        (Sess.mk d.roomId (sessOf w c).username) := by
  rcases h with h | h <;> simp only [onMessage, h] <;> rfl

theorem onMessage_shape (w : World) (c : ConnId) (d : Data)
    (h : d.type = some "text" ∨ d.type = some "rectangle" ∨ d.type = some "circle"
      ∨ d.type = some "clear") :
    onMessage w c (.parsed d) =
      setSess (handleShape w c d d.roomId) c
        (Sess.mk d.roomId (sessOf w c).username) := by
  rcases h with h | h | h | h <;> simp only [onMessage, h] <;> rfl

/-! ### Claim C6: malformed input is caught, answered with an error envelope
to the sender only, and the connection keeps working. -/

/-- C6: an unparsable frame, or a parsed message whose handling throws (the
missing-type path is the throw reachable in the handler), does not terminate
the connection: the whole state is unchanged except for one error envelope
of type error and message "Invalid data format" appended for the sender, so
no other connection receives anything and subsequent messages are processed
from an otherwise identical state. -/
theorem invalid_input_caught :
    (∀ w c, onMessage w c .malformed
        = { w with out := w.out ++ [(c, .error "Invalid data format")] })
    ∧ (∀ w c d, truthyS d.type = false → onMessage w c (.parsed d)
        = { w with out := w.out ++ [(c, .error "Invalid data format")] }) := by
  constructor
  · intro w c
    rfl
  · intro w c d h
    simp only [onMessage, h]
    rfl

/-- Witness for C6 at concrete inputs: an unparsable frame and a message
with a missing type, both from a fresh server. -/
theorem invalid_input_caught_witness :
    onMessage World.init 0 .malformed
        = { World.init with out := [(0, OutMsg.error "Invalid data format")] }
    ∧ onMessage World.init 1 (.parsed ⟨none, some "r", none, none, ""⟩)
        = { World.init with out := [(1, OutMsg.error "Invalid data format")] } :=
  ⟨invalid_input_caught.1 World.init 0,
   invalid_input_caught.2 World.init 1 ⟨none, some "r", none, none, ""⟩ rfl⟩

/-! ### Claim C8: unrecognized or missing message type. -/

/-- C8 counterexample: a message with a missing type field is not silently
ignored as the claim states: the router replies to the sender with an error
envelope (the missing-type check throws into the catch block). -/
theorem unknown_type_cex :
    (onMessage World.init 0 (.parsed ⟨none, none, none, none, ""⟩)).out
      = [(0, OutMsg.error "Invalid data format")]
    ∧ World.init.out = [] := ⟨rfl, rfl⟩

/-- C8 (amended): a message whose type is present but unrecognized is
ignored with no reply, no state change and no disconnection; a message whose
type is missing (or empty, hence falsy) is answered like malformed input,
with an error envelope to the sender only and no other state change. -/
theorem unknown_type_ignored :
    (∀ w c d s, d.type = some s → s.isEmpty = false → s ∉ knownTypes →
      onMessage w c (.parsed d) = w)
    ∧ (∀ w c d, truthyS d.type = false → onMessage w c (.parsed d)
        = { w with out := w.out ++ [(c, .error "Invalid data format")] }) := by
  constructor
  · intro w c d s hs hne hk
    have k1 : s ≠ "create_room" := fun h => hk (by simp [knownTypes, h])
    have k2 : s ≠ "join_room" := fun h => hk (by simp [knownTypes, h])
    have k3 : s ≠ "chat" := fun h => hk (by simp [knownTypes, h])
    have k4 : s ≠ "start" := fun h => hk (by simp [knownTypes, h])
    have k5 : s ≠ "draw" := fun h => hk (by simp [knownTypes, h])
    have k6 : s ≠ "text" := fun h => hk (by simp [knownTypes, h])
    have k7 : s ≠ "rectangle" := fun h => hk (by simp [knownTypes, h])
    have k8 : s ≠ "circle" := fun h => hk (by simp [knownTypes, h])
    have k9 : s ≠ "clear" := fun h => hk (by simp [knownTypes, h])
    simp [onMessage, hs, truthyS, hne, k1, k2, k3, k4, k5, k6, k7, k8, k9]
  · intro w c d h
    simp only [onMessage, h]
    rfl

/-- Witness for C8 at concrete inputs: an unknown type is a no-op on a
running server state; a missing type gets the generic error reply. -/
theorem unknown_type_ignored_witness :
    onMessage World.init 0 (.parsed ⟨some "zap", some "r", some "u", none, ""⟩) = World.init
    ∧ onMessage World.init 2 (.parsed ⟨none, none, none, none, "g"⟩)
        = { World.init with out := [(2, OutMsg.error "Invalid data format")] } :=
  ⟨unknown_type_ignored.1 World.init 0 ⟨some "zap", some "r", some "u", none, ""⟩ "zap"
      rfl rfl (by decide),
   unknown_type_ignored.2 World.init 2 ⟨none, none, none, none, "g"⟩ rfl⟩

/-! ### Claim C7: which messages touch the session state. -/

/-- C7 counterexample: a chat message naming a different room overwrites the
session's current room, so processing a chat does not leave the session's
current room unchanged. -/
theorem session_frame_cex :
    (sessOf (run World.init [.connect 0,
        .msg 0 (.parsed ⟨some "create_room", some "r1", some "alice", none, ""⟩)]) 0).currentRoom
      = some "r1"
    ∧ (sessOf (run World.init [.connect 0,
        .msg 0 (.parsed ⟨some "create_room", some "r1", some "alice", none, ""⟩),
        .msg 0 (.parsed ⟨some "chat", some "r2", none, some "x", ""⟩)]) 0).currentRoom
      = some "r2" := ⟨rfl, rfl⟩

/-- C7 (amended): processing a chat, start, draw, text, rectangle, circle or
clear message leaves the session's username unchanged but overwrites the
session's currentRoom with the message's roomId field, so the current room
is preserved exactly when the message carries the room the session already
points to; create_room/join_room handling and the leave path remain the only
other writers of session state. -/
theorem session_overwritten_by_room_field :
    ∀ w c d, (d.type = some "chat" ∨ d.type = some "start" ∨ d.type = some "draw"
        ∨ d.type = some "text" ∨ d.type = some "rectangle" ∨ d.type = some "circle"
        ∨ d.type = some "clear") →
      sessOf (onMessage w c (.parsed d)) c = ⟨d.roomId, (sessOf w c).username⟩ := by
  intro w c d h
  rcases h with h | h | h | h | h | h | h
  · rw [onMessage_chat w c d h, sessOf_setSess]
  · rw [onMessage_drawing w c d (Or.inl h), sessOf_setSess]
  · rw [onMessage_drawing w c d (Or.inr h), sessOf_setSess]
  · rw [onMessage_shape w c d (Or.inl h), sessOf_setSess]
  · rw [onMessage_shape w c d (Or.inr (Or.inl h)), sessOf_setSess]
  · rw [onMessage_shape w c d (Or.inr (Or.inr (Or.inl h))), sessOf_setSess]
  · rw [onMessage_shape w c d (Or.inr (Or.inr (Or.inr h))), sessOf_setSess]

/-- Witness for C7 (amended) at a concrete input: a draw message carrying
room r2 rewrites the session room to r2 and keeps the username. -/
theorem session_overwritten_witness :
    sessOf (onMessage (run World.init [.connect 0,
        .msg 0 (.parsed ⟨some "create_room", some "r1", some "alice", none, ""⟩)]) 0
      (.parsed ⟨some "draw", some "r2", none, none, "geo"⟩)) 0
      = ⟨some "r2", some "alice"⟩ :=
  session_overwritten_by_room_field _ 0 ⟨some "draw", some "r2", none, none, "geo"⟩
    (Or.inr (Or.inr (Or.inl rfl)))

/-! ### Helper: the delete branch of leaveRoom for a sole occupant. -/

theorem leave_deletes_rooms (w : World) (c : ConnId) (r : RoomId) (u₀ : String)
    (hr : aget w.rooms r = some [c]) (hu : aget w.users r = some [u₀]) :
    (leaveRoom w c (some r) (some u₀)).rooms = adel w.rooms r := by
  simp only [leaveRoom, hr, hu, eraseUserOpt]
  simp [List.erase_cons_head]

theorem leave_deletes_users (w : World) (c : ConnId) (r : RoomId) (u₀ : String)
    (hr : aget w.rooms r = some [c]) (hu : aget w.users r = some [u₀]) :
    (leaveRoom w c (some r) (some u₀)).users = adel w.users r := by
  simp only [leaveRoom, hr, hu, eraseUserOpt]
  simp [List.erase_cons_head]

theorem leave_deletes_drawings (w : World) (c : ConnId) (r : RoomId) (u₀ : String)
    (hr : aget w.rooms r = some [c]) (hu : aget w.users r = some [u₀]) :
    (leaveRoom w c (some r) (some u₀)).drawings = adel w.drawings r := by
  simp only [leaveRoom, hr, hu, eraseUserOpt]
  simp [List.erase_cons_head]

theorem leave_deletes_out (w : World) (c : ConnId) (r : RoomId) (u₀ : String)
    (hr : aget w.rooms r = some [c]) (hu : aget w.users r = some [u₀]) :
    (leaveRoom w c (some r) (some u₀)).out = w.out := by
  simp only [leaveRoom, hr, hu, eraseUserOpt]
  simp [List.erase_cons_head]

/-! ### Claim C5: create_room on an existing id. -/

/-- C5 counterexample: a create_room naming an existing room id does not
leave that room's drawing history unchanged.  A connection that is the sole
occupant of room r first leaves it (which deletes r), so the room is then
recreated with an empty history: the one stored drawing event is lost, and
the requester receives user_joined rather than the already-exists notice. -/
theorem create_existing_cex :
    ahas (run World.init [.connect 0,
        .msg 0 (.parsed ⟨some "create_room", some "r", some "alice", none, ""⟩),
        .msg 0 (.parsed ⟨some "draw", some "r", none, none, "p1"⟩)]).rooms "r" = true
    ∧ histOf (run World.init [.connect 0,
        .msg 0 (.parsed ⟨some "create_room", some "r", some "alice", none, ""⟩),
        .msg 0 (.parsed ⟨some "draw", some "r", none, none, "p1"⟩)]) "r"
      = [⟨some "draw", some "r", none, none, "p1"⟩]
    ∧ histOf (onMessage (run World.init [.connect 0,
        .msg 0 (.parsed ⟨some "create_room", some "r", some "alice", none, ""⟩),
        .msg 0 (.parsed ⟨some "draw", some "r", none, none, "p1"⟩)]) 0
        (.parsed ⟨some "create_room", some "r", some "alice", none, ""⟩)) "r"
      = [] := ⟨rfl, rfl, rfl⟩

/-- C5 (amended): when the requesting connection has no current room, a
create_room naming an existing id leaves that room's members, usernames and
history unchanged, and the only message sent is the already-exists notice to
the requester; when the requester is currently in a room, the
leave-before-create first mutates (and, for a sole occupant, deletes) that
room, as the counterexample shows. -/
theorem create_existing_frame :
    ∀ w c d r, d.type = some "create_room" → d.roomId = some r → r.isEmpty = false →
      truthyS d.username = true → truthyS (sessOf w c).currentRoom = false →
      ahas w.rooms r = true →
      (onMessage w c (.parsed d)).rooms = w.rooms
      ∧ (onMessage w c (.parsed d)).users = w.users
      ∧ (onMessage w c (.parsed d)).drawings = w.drawings
      ∧ (onMessage w c (.parsed d)).out
          = w.out ++ [(c, .roomAlreadyExist r (r ++ " already existed..."))] := by
  intro w c d r ht hrid hre hu hcur hhas
  obtain ⟨u, hun⟩ : ∃ u, d.username = some u := by
    cases hud : d.username
    · rw [hud] at hu
      simp [truthyS] at hu
    · exact ⟨_, rfl⟩
  have hue : u.isEmpty = false := by
    rw [hun] at hu
    simpa [truthyS] using hu
  rw [onMessage_create w c d ht]
  simp only [hcur, if_false, Bool.false_eq_true, hrid, hun]
  simp [truthyS, hre, hue, handleCreateRoom, hhas, setSess, sendTo]

/-- Witness for C5 (amended): a fresh second connection asks to create the
existing room r; the registry and the room are untouched and only the
notice is sent. -/
theorem create_existing_frame_witness :
    (onMessage (run World.init [.connect 0,
        .msg 0 (.parsed ⟨some "create_room", some "r", some "alice", none, ""⟩),
        .connect 1]) 1
        (.parsed ⟨some "create_room", some "r", some "bob", none, ""⟩)).drawings
      = (run World.init [.connect 0,
        .msg 0 (.parsed ⟨some "create_room", some "r", some "alice", none, ""⟩),
        .connect 1]).drawings
    ∧ (onMessage (run World.init [.connect 0,
        .msg 0 (.parsed ⟨some "create_room", some "r", some "alice", none, ""⟩),
        .connect 1]) 1
        (.parsed ⟨some "create_room", some "r", some "bob", none, ""⟩)).out
      = (run World.init [.connect 0,
        .msg 0 (.parsed ⟨some "create_room", some "r", some "alice", none, ""⟩),
        .connect 1]).out ++ [(1, .roomAlreadyExist "r" ("r" ++ " already existed..."))] := by
  have h := create_existing_frame (run World.init [.connect 0,
        .msg 0 (.parsed ⟨some "create_room", some "r", some "alice", none, ""⟩),
        .connect 1]) 1 ⟨some "create_room", some "r", some "bob", none, ""⟩ "r"
      rfl rfl rfl rfl rfl rfl
  exact ⟨h.2.2.1, h.2.2.2⟩

/-! ### Claim C10: a sole occupant joining its own room again. -/

/-- C10: if a connection is the sole occupant of room r (member set and
username set are exactly its own) and it sends join_room for r, the
leave-before-join empties and deletes r (discarding the drawing history),
the join lookup then fails, and the sender receives the no_room reply;
afterwards the connection is a member of no room and r is absent from the
registry. -/
theorem rejoin_sole_member :
    ∀ w c r u₀ d u, d.type = some "join_room" → d.roomId = some r → r.isEmpty = false →
      d.username = some u → u.isEmpty = false →
      sessOf w c = ⟨some r, some u₀⟩ →
      aget w.rooms r = some [c] → aget w.users r = some [u₀] →
      (∀ k ms, aget w.rooms k = some ms → c ∈ ms → k = r) →
      ahas (onMessage w c (.parsed d)).rooms r = false
      ∧ aget (onMessage w c (.parsed d)).drawings r = none
      ∧ (∀ k ms, aget (onMessage w c (.parsed d)).rooms k = some ms → c ∉ ms)
      ∧ (onMessage w c (.parsed d)).out
          = w.out ++ [(c, .noRoom ("Room " ++ r ++ " does not exist"))] := by
  intro w c r u₀ d u ht hrid hre hun hue hsess hrooms husers honly
  rw [onMessage_join w c d ht]
  simp only [hsess, truthyS, hre, Bool.not_false, if_true, hrid, hun, hue, Bool.and_self]
  have hW1r : (leaveRoom w c (some r) (some u₀)).rooms = adel w.rooms r :=
    leave_deletes_rooms w c r u₀ hrooms husers
  have hdel : ahas (leaveRoom w c (some r) (some u₀)).rooms r = false := by
    rw [hW1r]
    simp [ahas_adel]
  have hjoin : handleJoinRoom (leaveRoom w c (some r) (some u₀)) c (some r) (some u)
      = sendTo (leaveRoom w c (some r) (some u₀)) c
          (.noRoom ("Room " ++ r ++ " does not exist")) := by
    simp [handleJoinRoom, hre, hue, hdel]
  rw [hjoin]
  refine ⟨?_, ?_, ?_, ?_⟩
  · rw [setSess_rooms, sendTo_rooms, hW1r]
    simp [ahas_adel]
  · rw [setSess_drawings, sendTo_drawings, leave_deletes_drawings w c r u₀ hrooms husers]
    simp [aget_adel]
  · intro k ms hk hc
    rw [setSess_rooms, sendTo_rooms, hW1r, aget_adel] at hk
    by_cases hkr : r = k
    · simp [hkr] at hk
    · rw [if_neg hkr] at hk
      exact hkr (honly k ms hk hc).symm
  · rw [setSess_out, sendTo_out, leave_deletes_out w c r u₀ hrooms husers]

/-- Witness for C10: connection 0 creates room r and immediately sends
join_room for r; afterwards r is gone and the no_room reply was sent. -/
theorem rejoin_sole_member_witness :
    ahas (onMessage (run World.init [.connect 0,
        .msg 0 (.parsed ⟨some "create_room", some "r", some "alice", none, ""⟩)]) 0
        (.parsed ⟨some "join_room", some "r", some "alice", none, ""⟩)).rooms "r" = false
    ∧ (onMessage (run World.init [.connect 0,
        .msg 0 (.parsed ⟨some "create_room", some "r", some "alice", none, ""⟩)]) 0
        (.parsed ⟨some "join_room", some "r", some "alice", none, ""⟩)).out
      = (run World.init [.connect 0,
        .msg 0 (.parsed ⟨some "create_room", some "r", some "alice", none, ""⟩)]).out
        ++ [(0, .noRoom ("Room " ++ "r" ++ " does not exist"))] := by
  have h := rejoin_sole_member (run World.init [.connect 0,
        .msg 0 (.parsed ⟨some "create_room", some "r", some "alice", none, ""⟩)]) 0 "r"
      "alice" ⟨some "join_room", some "r", some "alice", none, ""⟩ "alice"
      rfl rfl rfl rfl rfl rfl rfl rfl
      (by
        intro k ms hk hc
        by_cases hkr : ("r" : String) = k
        · exact hkr.symm
        · exfalso
          have h2 : aget (run World.init [.connect 0,
              .msg 0 (.parsed ⟨some "create_room", some "r", some "alice", none, ""⟩)]).rooms k
              = aget [("r", [(0 : ConnId)])] k := rfl
          rw [h2] at hk
          simp [aget, hkr] at hk)
  exact ⟨h.1, h.2.2.2⟩

/-! ### Claim C3: room garbage collection on departure. -/

/-- C3: a leave removes the departed room from the registry exactly when the
member set and the username set are both empty after the departure's
deletions (no other key of the registry is touched by the leave); and once a
room id is absent from the registry, a join_room naming it changes no
registry state and the sender alone receives the no_room reply. -/
theorem room_deleted_iff :
    (∀ w c r u roomWs roomUsers,
      aget w.rooms r = some roomWs → aget w.users r = some roomUsers →
      (ahas (leaveRoom w c (some r) u).rooms r = false
        ↔ (roomWs.erase c = [] ∧ eraseUserOpt roomUsers u = []))
      ∧ ∀ r', r ≠ r' → ahas (leaveRoom w c (some r) u).rooms r' = ahas w.rooms r')
    ∧ (∀ w c d r u, d.type = some "join_room" → d.roomId = some r → r.isEmpty = false →
        d.username = some u → u.isEmpty = false →
        truthyS (sessOf w c).currentRoom = false →
        ahas w.rooms r = false →
        (onMessage w c (.parsed d)).rooms = w.rooms
        ∧ (onMessage w c (.parsed d)).users = w.users
        ∧ (onMessage w c (.parsed d)).drawings = w.drawings
        ∧ (onMessage w c (.parsed d)).out
            = w.out ++ [(c, .noRoom ("Room " ++ r ++ " does not exist"))]) := by
  constructor
  · intro w c r u roomWs roomUsers hr hu
    by_cases hcond : (roomWs.erase c).length = 0 ∧ (eraseUserOpt roomUsers u).length = 0
    · have hrooms : (leaveRoom w c (some r) u).rooms = adel w.rooms r := by
        simp only [leaveRoom, hr, hu]
        rw [if_pos hcond]
      refine ⟨?_, ?_⟩
      · rw [hrooms]
        constructor
        · intro _
          exact ⟨List.eq_nil_of_length_eq_zero hcond.1,
                 List.eq_nil_of_length_eq_zero hcond.2⟩
        · intro _
          simp [ahas_adel]
      · intro r' hne
        rw [hrooms, ahas_adel, if_neg hne]
    · have hrooms : (leaveRoom w c (some r) u).rooms = aset w.rooms r (roomWs.erase c) := by
        simp only [leaveRoom, hr, hu]
        rw [if_neg hcond, bcx_rooms]
      refine ⟨?_, ?_⟩
      · rw [hrooms]
        constructor
        · intro hfalse
          rw [ahas_aset] at hfalse
          simp at hfalse
        · rintro ⟨h1, h2⟩
          exact absurd ⟨by rw [h1]; rfl, by rw [h2]; rfl⟩ hcond
      · intro r' hne
        rw [hrooms, ahas_aset, if_neg hne]
  · intro w c d r u ht hrid hre hun hue hcur hhas
    rw [onMessage_join w c d ht]
    simp only [hcur, if_false, Bool.false_eq_true, hrid, hun]
    simp [truthyS, hre, hue, handleJoinRoom, hhas, setSess, sendTo]

/-- Witness for C3 at concrete inputs: the sole occupant's departure empties
both sets and deletes room r; a join for an id absent from a fresh registry
gets only the no_room reply. -/
theorem room_deleted_iff_witness :
    (ahas (leaveRoom (run World.init [.connect 0,
        .msg 0 (.parsed ⟨some "create_room", some "r", some "alice", none, ""⟩)]) 0
        (some "r") (some "alice")).rooms "r" = false
      ↔ ([(0 : ConnId)].erase 0 = [] ∧ eraseUserOpt ["alice"] (some "alice") = []))
    ∧ (onMessage (run World.init [.connect 1]) 1
        (.parsed ⟨some "join_room", some "nope", some "bob", none, ""⟩)).out
      = (run World.init [.connect 1]).out
        ++ [(1, .noRoom ("Room " ++ "nope" ++ " does not exist"))] := by
  refine ⟨?_, ?_⟩
  · exact (room_deleted_iff.1 (run World.init [.connect 0,
      .msg 0 (.parsed ⟨some "create_room", some "r", some "alice", none, ""⟩)]) 0 "r"
      (some "alice") [0] ["alice"] rfl rfl).1
  · exact (room_deleted_iff.2 (run World.init [.connect 1]) 1
      ⟨some "join_room", some "nope", some "bob", none, ""⟩ "nope" "bob"
      rfl rfl rfl rfl rfl rfl rfl).2.2.2

/-! ### The three room-keyed maps always hold the same keys: they are
created, updated and deleted together. -/

theorem ahas_aset_present {κ α : Type} [DecidableEq κ] (m : List (κ × α)) (k : κ) (v : α)
    (h : ahas m k = true) (k' : κ) : ahas (aset m k v) k' = ahas m k' := by
  rw [ahas_aset]
  by_cases e : k = k'
  · rw [if_pos e, ← e, h]
  · rw [if_neg e]

theorem sync_congr {w w' : World} (hr : w'.rooms = w.rooms) (hu : w'.users = w.users)
    (hd : w'.drawings = w.drawings) (h : Sync w) : Sync w' := by
  intro k
  rw [hr, hu, hd]
  exact h k

theorem sync_init : Sync World.init := by
  intro k
  exact ⟨rfl, rfl⟩

theorem sync_leave (w : World) (c : ConnId) (cur : Option RoomId) (u : Option String)
    (h : Sync w) : Sync (leaveRoom w c cur u) := by
  cases cur with
  | none => exact h
  | some r =>
    cases hr : aget w.rooms r with
    | none =>
      refine sync_congr ?_ ?_ ?_ h <;> simp only [leaveRoom, hr]
    | some roomWs =>
      cases hu : aget w.users r with
      | none =>
        refine sync_congr ?_ ?_ ?_ h <;> simp only [leaveRoom, hr, hu]
      | some roomUsers =>
        have hhr : ahas w.rooms r = true := by simp [ahas, hr]
        have hhu : ahas w.users r = true := by simp [ahas, hu]
        by_cases hcond : (roomWs.erase c).length = 0
            ∧ (eraseUserOpt roomUsers u).length = 0
        · intro k
          have er : (leaveRoom w c (some r) u).rooms = adel w.rooms r := by
            simp only [leaveRoom, hr, hu]
            rw [if_pos hcond]
          have eu : (leaveRoom w c (some r) u).users = adel w.users r := by
            simp only [leaveRoom, hr, hu]
            rw [if_pos hcond]
          have ed : (leaveRoom w c (some r) u).drawings = adel w.drawings r := by
            simp only [leaveRoom, hr, hu]
            rw [if_pos hcond]
          rw [er, eu, ed, ahas_adel, ahas_adel, ahas_adel]
          by_cases e : r = k
          · simp [e]
          · simp only [if_neg e]
            exact h k
        · intro k
          have er : (leaveRoom w c (some r) u).rooms = aset w.rooms r (roomWs.erase c) := by
            simp only [leaveRoom, hr, hu]
            rw [if_neg hcond, bcx_rooms]
          have eu : (leaveRoom w c (some r) u).users
              = aset w.users r (eraseUserOpt roomUsers u) := by
            simp only [leaveRoom, hr, hu]
            rw [if_neg hcond, bcx_users]
          have ed : (leaveRoom w c (some r) u).drawings = w.drawings := by
            simp only [leaveRoom, hr, hu]
            rw [if_neg hcond, bcx_drawings]
          rw [er, eu, ed, ahas_aset_present _ _ _ hhr, ahas_aset_present _ _ _ hhu]
          exact h k

theorem sync_addUser (w : World) (c : ConnId) (r : RoomId) (u : String)
    (hroom : ahas w.rooms r = true) (h : Sync w) : Sync (addUserToRoom w c r u) := by
  have huser : ahas w.users r = true := by rw [← (h r).1, hroom]
  intro k
  rw [addUser_rooms, addUser_users, addUser_drawings,
      ahas_aset_present _ _ _ hroom, ahas_aset_present _ _ _ huser]
  exact h k

theorem sync_hcr (w : World) (c : ConnId) (cur : Option RoomId) (u : Option String)
    (h : Sync w) : Sync (handleCreateRoom w c cur u) := by
  cases cur with
  | none => exact sync_congr rfl rfl rfl h
  | some r =>
    cases u with
    | none => exact sync_congr rfl rfl rfl h
    | some un =>
      by_cases he : (r.isEmpty || un.isEmpty) = true
      · have e : handleCreateRoom w c (some r) (some un)
            = sendTo w c (.error "Missing room ID or username") := by
          simp [handleCreateRoom, he]
        rw [e]
        exact sync_congr rfl rfl rfl h
      · by_cases hhas : ahas w.rooms r = true
        · have e : handleCreateRoom w c (some r) (some un)
              = sendTo w c (.roomAlreadyExist r (r ++ " already existed...")) := by
            simp [handleCreateRoom, he, hhas]
          rw [e]
          exact sync_congr rfl rfl rfl h
        · have hhas' : ahas w.rooms r = false := by
            cases hh : ahas w.rooms r
            · rfl
            · exact absurd hh hhas
          have e : handleCreateRoom w c (some r) (some un)
              = addUserToRoom
                  { w with
                      rooms := aset w.rooms r [],
                      users := aset w.users r [],
                      drawings := aset w.drawings r [] }
                  c r un := by
            simp [handleCreateRoom, he, hhas']
          rw [e]
          refine sync_addUser _ c r un (by simp [ahas, aget_aset_self]) ?_
          intro k
          simp only [ahas_aset]
          by_cases ekr : r = k
          · simp [ekr]
          · simp only [if_neg ekr]
            exact h k

theorem sync_hjr (w : World) (c : ConnId) (cur : Option RoomId) (u : Option String)
    (h : Sync w) : Sync (handleJoinRoom w c cur u) := by
  cases cur with
  | none => exact sync_congr rfl rfl rfl h
  | some r =>
    cases u with
    | none => exact sync_congr rfl rfl rfl h
    | some un =>
      by_cases he : (r.isEmpty || un.isEmpty) = true
      · have e : handleJoinRoom w c (some r) (some un)
            = sendTo w c (.errorAlt "Missing room ID or username") := by
          simp [handleJoinRoom, he]
        rw [e]
        exact sync_congr rfl rfl rfl h
      · by_cases hhas : ahas w.rooms r = true
        · have e : handleJoinRoom w c (some r) (some un) = addUserToRoom w c r un := by
            simp [handleJoinRoom, he, hhas]
          rw [e]
          exact sync_addUser w c r un hhas h
        · have hhas' : ahas w.rooms r = false := by
            cases hh : ahas w.rooms r
            · rfl
            · exact absurd hh hhas
          have e : handleJoinRoom w c (some r) (some un)
              = sendTo w c (.noRoom ("Room " ++ r ++ " does not exist")) := by
            simp [handleJoinRoom, he, hhas']
          rw [e]
          exact sync_congr rfl rfl rfl h

theorem sync_hdr (w : World) (c : ConnId) (d : Data) (cur : Option RoomId)
    (h : Sync w) : Sync (handleDrawing w c d cur) := by
  cases cur with
  | none => exact h
  | some r =>
    cases hd : aget w.drawings r with
    | none =>
      refine sync_congr ?_ ?_ ?_ h <;> simp only [handleDrawing, hd]
    | some drawing =>
      have hhd : ahas w.drawings r = true := by simp [ahas, hd]
      intro k
      rw [hdr_rooms, hdr_users]
      have ed : (handleDrawing w c d (some r)).drawings
          = if truthyS d.type then aset w.drawings r (drawing ++ [d]) else w.drawings := by
        simp only [handleDrawing, hd]
        rw [bcx_drawings]
        by_cases htr : truthyS d.type = true
        · simp [htr]
        · simp [htr]
      rw [ed]
      by_cases htr : truthyS d.type = true
      · rw [if_pos htr, ahas_aset_present _ _ _ hhd]
        exact h k
      · rw [if_neg htr]
        exact h k

theorem sync_hsh (w : World) (c : ConnId) (d : Data) (cur : Option RoomId)
    (h : Sync w) : Sync (handleShape w c d cur) := by
  cases cur with
  | none => exact h
  | some r =>
    cases hd : aget w.drawings r with
    | none =>
      refine sync_congr ?_ ?_ ?_ h <;> simp only [handleShape, hd]
    | some drawing =>
      have hhd : ahas w.drawings r = true := by simp [ahas, hd]
      intro k
      rw [hsh_rooms, hsh_users]
      have ed : (handleShape w c d (some r)).drawings
          = if d.type ≠ some "clear" then aset w.drawings r (drawing ++ [d])
            else aset w.drawings r [] := by
        simp only [handleShape, hd]
        rw [bcx_drawings]
        by_cases htr : d.type ≠ some "clear"
        · simp [htr]
        · simp [htr]
      rw [ed]
      by_cases htr : d.type ≠ some "clear"
      · rw [if_pos htr, ahas_aset_present _ _ _ hhd]
        exact h k
      · rw [if_neg htr, ahas_aset_present _ _ _ hhd]
        exact h k

theorem sync_onMessage (w : World) (c : ConnId) (m : InMsg) (h : Sync w) :
    Sync (onMessage w c m) := by
  rcases m with _ | d
  · exact sync_congr rfl rfl rfl h
  by_cases ht : truthyS d.type = false
  · have e : onMessage w c (.parsed d) = sendTo w c (.error "Invalid data format") := by
      simp only [onMessage, ht]
      rfl
    rw [e]
    exact sync_congr rfl rfl rfl h
  have hw1 : ∀ s : Sess, Sync (if truthyS s.currentRoom then
      leaveRoom w c s.currentRoom s.username else w) := by
    intro s
    by_cases htr : truthyS s.currentRoom = true
    · rw [if_pos htr]
      exact sync_leave w c s.currentRoom s.username h
    · rw [if_neg htr]
      exact h
  by_cases h1 : d.type = some "create_room"
  · rw [onMessage_create w c d h1]
    exact sync_congr rfl rfl rfl (sync_hcr _ c _ _ (hw1 _))
  by_cases h2 : d.type = some "join_room"
  · rw [onMessage_join w c d h2]
    exact sync_congr rfl rfl rfl (sync_hjr _ c _ _ (hw1 _))
  by_cases h3 : d.type = some "chat"
  · rw [onMessage_chat w c d h3]
    refine sync_congr ?_ ?_ ?_ h
    · rw [setSess_rooms, bcx_rooms]
    · rw [setSess_users, bcx_users]
    · rw [setSess_drawings, bcx_drawings]
  by_cases h4 : d.type = some "start" ∨ d.type = some "draw"
  · rw [onMessage_drawing w c d h4]
    exact sync_congr rfl rfl rfl (sync_hdr w c d _ h)
  by_cases h5 : d.type = some "text" ∨ d.type = some "rectangle"
      ∨ d.type = some "circle" ∨ d.type = some "clear"
  · rw [onMessage_shape w c d h5]
    exact sync_congr rfl rfl rfl (sync_hsh w c d _ h)
  · have ht' : truthyS d.type = true := by
      cases hh : truthyS d.type
      · exact absurd hh ht
      · rfl
    push_neg at h4 h5
    have e1 : (d.type == some "create_room") = false := by simpa using h1
    have e2 : (d.type == some "join_room") = false := by simpa using h2
    have e3 : (d.type == some "chat") = false := by simpa using h3
    have e4 : (d.type == some "start") = false := by simpa using h4.1
    have e5 : (d.type == some "draw") = false := by simpa using h4.2
    have e6 : (d.type == some "text") = false := by simpa using h5.1
    have e7 : (d.type == some "rectangle") = false := by simpa using h5.2.1
    have e8 : (d.type == some "circle") = false := by simpa using h5.2.2.1
    have e9 : (d.type == some "clear") = false := by simpa using h5.2.2.2
    have e : onMessage w c (.parsed d) = w := by
      simp [onMessage, ht', e1, e2, e3, e4, e5, e6, e7, e8, e9]
    rw [e]
    exact h

theorem sync_step (w : World) (e : Event) (h : Sync w) : Sync (step w e) := by
  cases e with
  | connect c => exact sync_congr rfl rfl rfl h
  | msg c m => exact sync_onMessage w c m h
  | close c =>
    by_cases htr : truthyS (sessOf w c).currentRoom = true
    · refine sync_congr ?_ ?_ ?_
        (sync_leave w c (sessOf w c).currentRoom (sessOf w c).username h)
          <;> simp [step, onClose, htr]
    · refine sync_congr ?_ ?_ ?_ h <;> simp [step, onClose, htr]

theorem sync_run (tr : List Event) : ∀ w : World, Sync w → Sync (run w tr) := by
  induction tr with
  | nil => intro w h; exact h
  | cons e tr ih =>
    intro w h
    exact ih (step w e) (sync_step w e h)

/-! ### Claim C9: broadcast-family messages naming an unknown room. -/

theorem bcx_noroom (w : World) (room : Option RoomId) (c : ConnId) (d : OutMsg)
    (h : mget w.rooms room = none) : broadcastToRoomExcept w room c d = w := by
  unfold broadcastToRoomExcept
  rw [h]

theorem hdr_noroom (w : World) (c : ConnId) (d : Data) (cur : Option RoomId)
    (h : mget w.drawings cur = none) : handleDrawing w c d cur = w := by
  cases cur with
  | none => rfl
  | some r =>
    simp only [mget] at h
    simp only [handleDrawing, h]

theorem hsh_noroom (w : World) (c : ConnId) (d : Data) (cur : Option RoomId)
    (h : mget w.drawings cur = none) : handleShape w c d cur = w := by
  cases cur with
  | none => rfl
  | some r =>
    simp only [mget] at h
    simp only [handleShape, h]

/-- C9: a chat, start, draw, text, rectangle, circle or clear message whose
roomId does not name a room of the registry is silently dropped: the
registry and every room's members, usernames and history are unchanged, and
nothing at all is sent (no broadcast and no reply).  Stated over reachable
server states, where the three maps always carry the same keys. -/
theorem unknown_room_dropped :
    ∀ tr c d, (d.type = some "chat" ∨ d.type = some "start" ∨ d.type = some "draw"
        ∨ d.type = some "text" ∨ d.type = some "rectangle" ∨ d.type = some "circle"
        ∨ d.type = some "clear") →
      mget (run World.init tr).rooms d.roomId = none →
      (onMessage (run World.init tr) c (.parsed d)).rooms = (run World.init tr).rooms
      ∧ (onMessage (run World.init tr) c (.parsed d)).users = (run World.init tr).users
      ∧ (onMessage (run World.init tr) c (.parsed d)).drawings
          = (run World.init tr).drawings
      ∧ (onMessage (run World.init tr) c (.parsed d)).out = (run World.init tr).out := by
  intro tr c d htype habs
  have hsync : Sync (run World.init tr) := sync_run tr World.init sync_init
  have habsd : mget (run World.init tr).drawings d.roomId = none := by
    cases hrid : d.roomId with
    | none => rfl
    | some r =>
      rw [hrid] at habs
      simp only [mget] at habs ⊢
      have h1 : ahas (run World.init tr).rooms r = false := by
        simp [ahas, habs]
      have h2 : ahas (run World.init tr).drawings r = false := by
        rw [← (hsync r).2, h1]
      simp only [ahas] at h2
      cases hh : aget (run World.init tr).drawings r
      · rfl
      · rw [hh] at h2
        simp at h2
  rcases htype with h | h | h | h | h | h | h
  · rw [onMessage_chat _ c d h, bcx_noroom _ _ _ _ habs]
    exact ⟨rfl, rfl, rfl, rfl⟩
  · rw [onMessage_drawing _ c d (Or.inl h), hdr_noroom _ c d _ habsd]
    exact ⟨rfl, rfl, rfl, rfl⟩
  · rw [onMessage_drawing _ c d (Or.inr h), hdr_noroom _ c d _ habsd]
    exact ⟨rfl, rfl, rfl, rfl⟩
  · rw [onMessage_shape _ c d (Or.inl h), hsh_noroom _ c d _ habsd]
    exact ⟨rfl, rfl, rfl, rfl⟩
  · rw [onMessage_shape _ c d (Or.inr (Or.inl h)), hsh_noroom _ c d _ habsd]
    exact ⟨rfl, rfl, rfl, rfl⟩
  · rw [onMessage_shape _ c d (Or.inr (Or.inr (Or.inl h))), hsh_noroom _ c d _ habsd]
    exact ⟨rfl, rfl, rfl, rfl⟩
  · rw [onMessage_shape _ c d (Or.inr (Or.inr (Or.inr h))), hsh_noroom _ c d _ habsd]
    exact ⟨rfl, rfl, rfl, rfl⟩

/-- Witness for C9: a draw for an absent room id on a server with one
connected client changes nothing and sends nothing. -/
theorem unknown_room_dropped_witness :
    (onMessage (run World.init [.connect 0]) 0
        (.parsed ⟨some "draw", some "nope", none, none, "x"⟩)).drawings
      = (run World.init [.connect 0]).drawings
    ∧ (onMessage (run World.init [.connect 0]) 0
        (.parsed ⟨some "draw", some "nope", none, none, "x"⟩)).out
      = (run World.init [.connect 0]).out := by
  have h := unknown_room_dropped [.connect 0] 0
    ⟨some "draw", some "nope", none, none, "x"⟩ (Or.inr (Or.inr (Or.inl rfl))) rfl
  exact ⟨h.2.2.1, h.2.2.2⟩

/-! ### Claim C4: broadcast self-exclusion, join announcement included. -/

theorem bcx_out_of (w1 w : World) (room : Option RoomId) (c : ConnId) (d : OutMsg)
    (hro : w1.rooms = w.rooms) (hou : w1.out = w.out) :
    ∃ δ, (broadcastToRoomExcept w1 room c d).out = w.out ++ δ ∧
      ∀ p ∈ δ, p.2 = d ∧ p.1 ≠ c ∧ ∃ ms, mget w.rooms room = some ms ∧ p.1 ∈ ms := by
  obtain ⟨δ, h1, h2⟩ := bcx_out w1 room c d
  refine ⟨δ, by rw [h1, hou], ?_⟩
  intro p hp
  obtain ⟨ha, hb, ms, hm, hin⟩ := h2 p hp
  exact ⟨ha, hb, ms, by rw [← hro]; exact hm, hin⟩

theorem hdr_out (w : World) (c : ConnId) (d : Data) (cur : Option RoomId) :
    ∃ δ, (handleDrawing w c d cur).out = w.out ++ δ ∧
      ∀ p ∈ δ, p.2 = OutMsg.raw d ∧ p.1 ≠ c
        ∧ ∃ ms, mget w.rooms cur = some ms ∧ p.1 ∈ ms := by
  cases cur with
  | none => exact ⟨[], by simp [handleDrawing], by simp⟩
  | some r =>
    cases hd : aget w.drawings r with
    | none =>
      refine ⟨[], ?_, by simp⟩
      simp only [handleDrawing, hd]
      simp
    | some drawing =>
      simp only [handleDrawing, hd]
      exact bcx_out_of _ w (some r) c (.raw d) (by split <;> rfl) (by split <;> rfl)

theorem hsh_out (w : World) (c : ConnId) (d : Data) (cur : Option RoomId) :
    ∃ δ, (handleShape w c d cur).out = w.out ++ δ ∧
      ∀ p ∈ δ, p.2 = OutMsg.raw d ∧ p.1 ≠ c
        ∧ ∃ ms, mget w.rooms cur = some ms ∧ p.1 ∈ ms := by
  cases cur with
  | none => exact ⟨[], by simp [handleShape], by simp⟩
  | some r =>
    cases hd : aget w.drawings r with
    | none =>
      refine ⟨[], ?_, by simp⟩
      simp only [handleShape, hd]
      simp
    | some drawing =>
      simp only [handleShape, hd]
      exact bcx_out_of _ w (some r) c (.raw d) (by split <;> rfl) (by split <;> rfl)

/-- Shared helper: a successful join appends to the outbound log a
user_joined envelope for the joiner itself, carrying the room's stored
drawing history, the updated username list and the updated member count. -/
theorem join_delivers (w : World) (c : ConnId) (d : Data) (r : RoomId) (u : String)
    (ht : d.type = some "join_room") (hrid : d.roomId = some r)
    (hre : r.isEmpty = false) (hun : d.username = some u) (hue : u.isEmpty = false)
    (hcur : truthyS (sessOf w c).currentRoom = false)
    (hhas : ahas w.rooms r = true) (hopen : c ∈ w.openConns) :
    (c, OutMsg.userJoined (histOf w r) (sadd ((aget w.users r).getD []) u) u r
        (sadd ((aget w.rooms r).getD []) c).length (u ++ " joined the room: " ++ r))
      ∈ (onMessage w c (.parsed d)).out := by
  rw [onMessage_join w c d ht]
  simp only [hcur, if_false, Bool.false_eq_true, hrid, hun]
  simp only [truthyS, hre, hue, Bool.not_false, Bool.and_self, if_true]
  rw [setSess_out]
  have e : handleJoinRoom w c (some r) (some u) = addUserToRoom w c r u := by
    simp [handleJoinRoom, hre, hue, hhas]
  rw [e]
  unfold addUserToRoom broadcastToRoom
  simp only [aget_aset_self]
  apply List.mem_append_right
  apply List.mem_map.mpr
  refine ⟨c, List.mem_filter.mpr ⟨self_mem_sadd _ c, ?_⟩, rfl⟩
  simpa using hopen

/-- C4: chat, drawing, shape and clear broadcasts are delivered only to
members of the named room other than the sending connection (the sender
never receives its own broadcast), while the user_joined announcement of a
successful join is received by the joining connection itself. -/
theorem self_exclusion :
    (∀ w c d, (d.type = some "chat" ∨ d.type = some "start" ∨ d.type = some "draw"
        ∨ d.type = some "text" ∨ d.type = some "rectangle" ∨ d.type = some "circle"
        ∨ d.type = some "clear") →
      ∃ δ, (onMessage w c (.parsed d)).out = w.out ++ δ
        ∧ ∀ p ∈ δ, p.1 ≠ c ∧ ∃ ms, mget w.rooms d.roomId = some ms ∧ p.1 ∈ ms)
    ∧ (∀ w c d r u, d.type = some "join_room" → d.roomId = some r →
        r.isEmpty = false → d.username = some u → u.isEmpty = false →
        truthyS (sessOf w c).currentRoom = false →
        ahas w.rooms r = true → c ∈ w.openConns →
        (c, OutMsg.userJoined (histOf w r) (sadd ((aget w.users r).getD []) u) u r
            (sadd ((aget w.rooms r).getD []) c).length (u ++ " joined the room: " ++ r))
          ∈ (onMessage w c (.parsed d)).out) := by
  constructor
  · intro w c d htype
    rcases htype with h | h | h | h | h | h | h
    · rw [onMessage_chat w c d h, setSess_out]
      obtain ⟨δ, h1, h2⟩ := bcx_out w d.roomId c (.chat (sessOf w c).username d.text w.now)
      exact ⟨δ, h1, fun p hp => ⟨(h2 p hp).2.1, (h2 p hp).2.2⟩⟩
    · rw [onMessage_drawing w c d (Or.inl h), setSess_out]
      obtain ⟨δ, h1, h2⟩ := hdr_out w c d d.roomId
      exact ⟨δ, h1, fun p hp => ⟨(h2 p hp).2.1, (h2 p hp).2.2⟩⟩
    · rw [onMessage_drawing w c d (Or.inr h), setSess_out]
      obtain ⟨δ, h1, h2⟩ := hdr_out w c d d.roomId
      exact ⟨δ, h1, fun p hp => ⟨(h2 p hp).2.1, (h2 p hp).2.2⟩⟩
    · rw [onMessage_shape w c d (Or.inl h), setSess_out]
      obtain ⟨δ, h1, h2⟩ := hsh_out w c d d.roomId
      exact ⟨δ, h1, fun p hp => ⟨(h2 p hp).2.1, (h2 p hp).2.2⟩⟩
    · rw [onMessage_shape w c d (Or.inr (Or.inl h)), setSess_out]
      obtain ⟨δ, h1, h2⟩ := hsh_out w c d d.roomId
      exact ⟨δ, h1, fun p hp => ⟨(h2 p hp).2.1, (h2 p hp).2.2⟩⟩
    · rw [onMessage_shape w c d (Or.inr (Or.inr (Or.inl h))), setSess_out]
      obtain ⟨δ, h1, h2⟩ := hsh_out w c d d.roomId
      exact ⟨δ, h1, fun p hp => ⟨(h2 p hp).2.1, (h2 p hp).2.2⟩⟩
    · rw [onMessage_shape w c d (Or.inr (Or.inr (Or.inr h))), setSess_out]
      obtain ⟨δ, h1, h2⟩ := hsh_out w c d d.roomId
      exact ⟨δ, h1, fun p hp => ⟨(h2 p hp).2.1, (h2 p hp).2.2⟩⟩
  · intro w c d r u ht hrid hre hun hue hcur hhas hopen
    exact join_delivers w c d r u ht hrid hre hun hue hcur hhas hopen

/-- Witness for C4: a chat in a two-member room reaches only the other
member; a fresh connection joining an existing room receives its own
user_joined announcement. -/
theorem self_exclusion_witness :
    (∃ δ, (onMessage (run World.init [.connect 0,
        .msg 0 (.parsed ⟨some "create_room", some "r", some "alice", none, ""⟩)]) 0
        (.parsed ⟨some "chat", some "r", none, some "hello", ""⟩)).out
      = (run World.init [.connect 0,
        .msg 0 (.parsed ⟨some "create_room", some "r", some "alice", none, ""⟩)]).out ++ δ
        ∧ ∀ p ∈ δ, p.1 ≠ 0 ∧ ∃ ms, mget (run World.init [.connect 0,
            .msg 0 (.parsed ⟨some "create_room", some "r", some "alice", none, ""⟩)]).rooms
            (some "r") = some ms ∧ p.1 ∈ ms)
    ∧ (1, OutMsg.userJoined [] ["alice", "bob"] "bob" "r" 2
          ("bob" ++ " joined the room: " ++ "r"))
      ∈ (onMessage (run World.init [.connect 0,
          .msg 0 (.parsed ⟨some "create_room", some "r", some "alice", none, ""⟩),
          .connect 1]) 1
          (.parsed ⟨some "join_room", some "r", some "bob", none, ""⟩)).out := by
  constructor
  · exact self_exclusion.1 (run World.init [.connect 0,
      .msg 0 (.parsed ⟨some "create_room", some "r", some "alice", none, ""⟩)]) 0
      ⟨some "chat", some "r", none, some "hello", ""⟩ (Or.inl rfl)
  · exact self_exclusion.2 (run World.init [.connect 0,
      .msg 0 (.parsed ⟨some "create_room", some "r", some "alice", none, ""⟩),
      .connect 1]) 1 ⟨some "join_room", some "r", some "bob", none, ""⟩ "r" "bob"
      rfl rfl rfl rfl rfl rfl rfl (by decide)

/-! ### Claim C2: replay of the drawing history to a joining connection. -/

/-- A leave never changes the history of a room that is still registered
after it (it deletes the history only together with the room itself). -/
theorem leave_hist (w : World) (c : ConnId) (cur : Option RoomId) (u : Option String)
    (r : RoomId) (hafter : ahas (leaveRoom w c cur u).rooms r = true) :
    histOf (leaveRoom w c cur u) r = histOf w r := by
  cases cur with
  | none => rfl
  | some r₀ =>
    cases hr : aget w.rooms r₀ with
    | none => simp only [leaveRoom, hr]
    | some roomWs =>
      cases hu : aget w.users r₀ with
      | none => simp only [leaveRoom, hr, hu]
      | some roomUsers =>
        by_cases hcond : (roomWs.erase c).length = 0 ∧ (eraseUserOpt roomUsers u).length = 0
        · have er : (leaveRoom w c (some r₀) u).rooms = adel w.rooms r₀ := by
            simp only [leaveRoom, hr, hu]
            rw [if_pos hcond]
          have ed : (leaveRoom w c (some r₀) u).drawings = adel w.drawings r₀ := by
            simp only [leaveRoom, hr, hu]
            rw [if_pos hcond]
          rw [er, ahas_adel] at hafter
          by_cases hrr : r₀ = r
          · rw [if_pos hrr] at hafter
            cases hafter
          · unfold histOf
            rw [ed, aget_adel, if_neg hrr]
        · have ed : (leaveRoom w c (some r₀) u).drawings = w.drawings := by
            simp only [leaveRoom, hr, hu]
            rw [if_neg hcond, bcx_drawings]
          unfold histOf
          rw [ed]

theorem hjr_drawings (w : World) (c : ConnId) (cur : Option RoomId) (u : Option String) :
    (handleJoinRoom w c cur u).drawings = w.drawings := by
  unfold handleJoinRoom
  repeat' split
  all_goals first | rfl | simp [addUser_drawings]

theorem hjr_ahas (w : World) (c : ConnId) (cur : Option RoomId) (u : Option String)
    (k : RoomId) : ahas (handleJoinRoom w c cur u).rooms k = ahas w.rooms k := by
  cases cur with
  | none => rfl
  | some rN =>
    cases u with
    | none => rfl
    | some uN =>
      by_cases he : (rN.isEmpty || uN.isEmpty) = true
      · have e : handleJoinRoom w c (some rN) (some uN)
            = sendTo w c (.errorAlt "Missing room ID or username") := by
          simp [handleJoinRoom, he]
        rw [e]
        rfl
      · by_cases hh : ahas w.rooms rN = true
        · have e : handleJoinRoom w c (some rN) (some uN) = addUserToRoom w c rN uN := by
            simp [handleJoinRoom, he, hh]
          rw [e, addUser_rooms, ahas_aset_present _ _ _ hh]
        · have hh' : ahas w.rooms rN = false := by
            cases hg : ahas w.rooms rN
            · rfl
            · exact absurd hg hh
          have e : handleJoinRoom w c (some rN) (some uN)
              = sendTo w c (.noRoom ("Room " ++ rN ++ " does not exist")) := by
            simp [handleJoinRoom, he, hh']
          rw [e]
          rfl

/-- histOf through the leave-if-current-room-set step. -/
theorem leave_hist_ite (w : World) (c : ConnId) (cur : Option RoomId) (u : Option String)
    (r : RoomId) (b : Bool)
    (hafter : ahas (if b = true then leaveRoom w c cur u else w).rooms r = true) :
    histOf (if b = true then leaveRoom w c cur u else w) r = histOf w r := by
  cases b with
  | false => simp
  | true =>
    simp only [if_pos rfl] at hafter ⊢
    exact leave_hist w c cur u r hafter

/-- One event's effect on the stored history of a room that is registered
before and after the event (and is not hit by a create_room, which may
delete and re-create it in one run): exactly the fold step of its drawing
event, if any. -/
theorem step_hist (w : World) (e : Event) (r : RoomId) (hs : Sync w)
    (hnc : noCreateB e = true) (hbefore : ahas w.rooms r = true)
    (hafter : ahas (step w e).rooms r = true) :
    histOf (step w e) r = (isDrawFor r e).elim (histOf w r) (histStep (histOf w r)) := by
  cases e with
  | connect c => rfl
  | close c =>
    show histOf (onClose w c) r = histOf w r
    by_cases htr : truthyS (sessOf w c).currentRoom = true
    · have hroomseq : (onClose w c).rooms
          = (leaveRoom w c (sessOf w c).currentRoom (sessOf w c).username).rooms := by
        simp [onClose, htr]
      have hdreq : (onClose w c).drawings
          = (leaveRoom w c (sessOf w c).currentRoom (sessOf w c).username).drawings := by
        simp [onClose, htr]
      have hafter2 : ahas (leaveRoom w c (sessOf w c).currentRoom
          (sessOf w c).username).rooms r = true := by
        rw [← hroomseq]
        exact hafter
      unfold histOf
      rw [hdreq]
      exact leave_hist w c _ _ r hafter2
    · have hd : (onClose w c).drawings = w.drawings := by simp [onClose, htr]
      unfold histOf
      rw [hd]
  | msg c m =>
    rcases m with _ | d
    · rfl
    by_cases ht : truthyS d.type = false
    · have e0 : onMessage w c (.parsed d) = sendTo w c (.error "Invalid data format") := by
        simp only [onMessage, ht]
        rfl
      have hnone : isDrawFor r (.msg c (.parsed d)) = none := by
        cases htp : d.type with
        | none => simp [isDrawFor, htp]
        | some s =>
          rw [htp] at ht
          have hisE : s.isEmpty = true := by simpa [truthyS] using ht
          have hms : s ∉ drawTypes := by
            intro hmem
            have hne : s.isEmpty = false := by
              simp only [drawTypes, List.mem_cons, List.not_mem_nil, or_false] at hmem
              rcases hmem with h | h | h | h | h | h <;> rw [h] <;> rfl
            rw [hne] at hisE
            exact Bool.noConfusion hisE
          simp [isDrawFor, htp, hms]
      rw [hnone]
      show histOf (onMessage w c (.parsed d)) r = histOf w r
      rw [e0]
      rfl
    have ht2 : truthyS d.type = true := by
      cases hg : truthyS d.type
      · exact absurd hg ht
      · rfl
    by_cases h1 : d.type = some "create_room"
    · exfalso
      have hb : noCreateB (.msg c (.parsed d)) = false := by simp [noCreateB, h1]
      rw [hnc] at hb
      exact Bool.noConfusion hb
    by_cases h2 : d.type = some "join_room"
    · have hnone : isDrawFor r (.msg c (.parsed d)) = none := by
        simp [isDrawFor, h2, drawTypes]
      rw [hnone]
      show histOf (onMessage w c (.parsed d)) r = histOf w r
      have hafter2 : ahas ((if truthyS (sessOf w c).currentRoom then
          leaveRoom w c (sessOf w c).currentRoom (sessOf w c).username else w)).rooms r
          = true := by
        have h := hafter
        rw [show step w (.msg c (.parsed d)) = onMessage w c (.parsed d) from rfl,
            onMessage_join w c d h2, setSess_rooms, hjr_ahas] at h
        exact h
      rw [onMessage_join w c d h2]
      unfold histOf
      rw [setSess_drawings, hjr_drawings]
      exact leave_hist_ite w c _ _ r _ hafter2
    by_cases h3 : d.type = some "chat"
    · have hnone : isDrawFor r (.msg c (.parsed d)) = none := by
        simp [isDrawFor, h3, drawTypes]
      rw [hnone]
      show histOf (onMessage w c (.parsed d)) r = histOf w r
      rw [onMessage_chat w c d h3]
      unfold histOf
      rw [setSess_drawings, bcx_drawings]
    by_cases h4 : d.type = some "start" ∨ d.type = some "draw"
    · show histOf (onMessage w c (.parsed d)) r = _
      rw [onMessage_drawing w c d h4]
      by_cases hrid : d.roomId = some r
      · have hsome : isDrawFor r (.msg c (.parsed d)) = some d := by
          rcases h4 with h | h <;> simp [isDrawFor, h, drawTypes, hrid]
        rw [hsome]
        have hdh : ahas w.drawings r = true := by rw [← (hs r).2]; exact hbefore
        obtain ⟨x, hx⟩ : ∃ x, aget w.drawings r = some x := by
          have h9 : (aget w.drawings r).isSome = true := hdh
          exact Option.isSome_iff_exists.mp h9
        have hnotclear : ¬ d.type = some "clear" := by
          rcases h4 with h | h <;> rw [h] <;> decide
        unfold histOf
        rw [setSess_drawings, hrid]
        simp only [handleDrawing, hx]
        rw [bcx_drawings, ht2]
        simp [histStep, hnotclear, aget_aset_self, histOf, hx]
      · have hnone : isDrawFor r (.msg c (.parsed d)) = none := by
          rcases h4 with h | h <;> simp [isDrawFor, h, drawTypes, hrid]
        rw [hnone]
        unfold histOf
        rw [setSess_drawings]
        cases hri : d.roomId with
        | none => rfl
        | some r2 =>
          have hrr : r2 ≠ r := by
            intro hh
            exact hrid (by rw [hri, hh])
          cases hg : aget w.drawings r2 with
          | none =>
            simp only [handleDrawing, hg]
            rfl
          | some x =>
            simp only [handleDrawing, hg]
            rw [bcx_drawings, ht2]
            simp [aget_aset_ne _ _ hrr]
    by_cases h5 : d.type = some "text" ∨ d.type = some "rectangle"
        ∨ d.type = some "circle" ∨ d.type = some "clear"
    · show histOf (onMessage w c (.parsed d)) r = _
      rw [onMessage_shape w c d h5]
      by_cases hrid : d.roomId = some r
      · have hsome : isDrawFor r (.msg c (.parsed d)) = some d := by
          rcases h5 with h | h | h | h <;> simp [isDrawFor, h, drawTypes, hrid]
        rw [hsome]
        have hdh : ahas w.drawings r = true := by rw [← (hs r).2]; exact hbefore
        obtain ⟨x, hx⟩ : ∃ x, aget w.drawings r = some x := by
          have h9 : (aget w.drawings r).isSome = true := hdh
          exact Option.isSome_iff_exists.mp h9
        unfold histOf
        rw [setSess_drawings, hrid]
        simp only [handleShape, hx]
        rw [bcx_drawings]
        by_cases hclear : d.type = some "clear"
        · rw [if_neg (by simp [hclear])]
          simp [histStep, aget_aset_self, hclear]
        · rw [if_pos (by simpa using hclear)]
          simp [histStep, hclear, aget_aset_self, histOf, hx]
      · have hnone : isDrawFor r (.msg c (.parsed d)) = none := by
          rcases h5 with h | h | h | h <;> simp [isDrawFor, h, drawTypes, hrid]
        rw [hnone]
        unfold histOf
        rw [setSess_drawings]
        cases hri : d.roomId with
        | none => rfl
        | some r2 =>
          have hrr : r2 ≠ r := by
            intro hh
            exact hrid (by rw [hri, hh])
          cases hg : aget w.drawings r2 with
          | none =>
            simp only [handleShape, hg]
            rfl
          | some x =>
            simp only [handleShape, hg]
            rw [bcx_drawings]
            by_cases hcl : d.type = some "clear"
            · rw [if_neg (by simp [hcl])]
              simp [aget_aset_ne _ _ hrr]
            · rw [if_pos (by simpa using hcl)]
              simp [aget_aset_ne _ _ hrr]
    · have e1 : (d.type == some "create_room") = false := by simpa using h1
      have e2 : (d.type == some "join_room") = false := by simpa using h2
      have e3 : (d.type == some "chat") = false := by simpa using h3
      push_neg at h4 h5
      have e4 : (d.type == some "start") = false := by simpa using h4.1
      have e5 : (d.type == some "draw") = false := by simpa using h4.2
      have e6 : (d.type == some "text") = false := by simpa using h5.1
      have e7 : (d.type == some "rectangle") = false := by simpa using h5.2.1
      have e8 : (d.type == some "circle") = false := by simpa using h5.2.2.1
      have e9 : (d.type == some "clear") = false := by simpa using h5.2.2.2
      have e0 : onMessage w c (.parsed d) = w := by
        simp [onMessage, ht2, e1, e2, e3, e4, e5, e6, e7, e8, e9]
      have hnone : isDrawFor r (.msg c (.parsed d)) = none := by
        cases htp : d.type with
        | none => simp [isDrawFor, htp]
        | some s =>
          have hms : s ∉ drawTypes := by
            intro hmem
            simp only [drawTypes, List.mem_cons, List.not_mem_nil, or_false] at hmem
            rcases hmem with h | h | h | h | h | h
            · exact h4.1 (by rw [htp, h])
            · exact h4.2 (by rw [htp, h])
            · exact h5.1 (by rw [htp, h])
            · exact h5.2.1 (by rw [htp, h])
            · exact h5.2.2.1 (by rw [htp, h])
            · exact h5.2.2.2 (by rw [htp, h])
          simp [isDrawFor, htp, hms]
      rw [hnone]
      show histOf (onMessage w c (.parsed d)) r = histOf w r
      rw [e0]

theorem presentThroughout_head (w : World) (r : RoomId) (tr : List Event)
    (h : presentThroughout w r tr = true) : ahas w.rooms r = true := by
  cases tr with
  | nil => exact h
  | cons e tr =>
    rw [presentThroughout, Bool.and_eq_true] at h
    exact h.1

/-- Over any window of the trace in which room r stays registered and no
create_room message arrives, the stored history of r evolves exactly as the
fold of the window's drawing events for r (append, with clear resetting). -/
theorem hist_fold (r : RoomId) (tr : List Event) : ∀ w, Sync w →
    (∀ e ∈ tr, noCreateB e = true) → presentThroughout w r tr = true →
    histOf (run w tr) r = (drawMsgsFor tr r).foldl histStep (histOf w r) := by
  induction tr with
  | nil =>
    intro w _ _ _
    rfl
  | cons e tr ih =>
    intro w hs hnc hpres
    rw [presentThroughout, Bool.and_eq_true] at hpres
    have hbefore := hpres.1
    have htail := hpres.2
    have hafter : ahas (step w e).rooms r = true := presentThroughout_head _ r tr htail
    have hstep := step_hist w e r hs (hnc e (List.mem_cons_self e tr)) hbefore hafter
    show histOf (run (step w e) tr) r = _
    rw [ih (step w e) (sync_step w e hs)
        (fun e2 he2 => hnc e2 (List.mem_cons_of_mem e he2)) htail, hstep]
    cases hiso : isDrawFor r e with
    | none => simp [drawMsgsFor, List.filterMap_cons, hiso]
    | some d => simp [drawMsgsFor, List.filterMap_cons, hiso]

/-- C2: (1) a connection joining a room receives, inside its own user_joined
envelope, exactly the room's stored drawing history; (2) that stored history
is exactly the room's prior drawing events folded in arrival order, where
non-clear events append and a clear resets to empty — over any window in
which the room stays registered and no create_room message (which can
delete and re-create the room in one run) arrives.  Together: the joiner
receives exactly the prior non-clear drawing events since the last clear, in
original order, and an empty list when a clear came after them. -/
theorem replay_correct :
    (∀ w c d r u, d.type = some "join_room" → d.roomId = some r →
        r.isEmpty = false → d.username = some u → u.isEmpty = false →
        truthyS (sessOf w c).currentRoom = false →
        ahas w.rooms r = true → c ∈ w.openConns →
        (c, OutMsg.userJoined (histOf w r) (sadd ((aget w.users r).getD []) u) u r
            (sadd ((aget w.rooms r).getD []) c).length (u ++ " joined the room: " ++ r))
          ∈ (onMessage w c (.parsed d)).out)
    ∧ (∀ tr r w, Sync w → (∀ e ∈ tr, noCreateB e = true) →
        presentThroughout w r tr = true →
        histOf (run w tr) r = (drawMsgsFor tr r).foldl histStep (histOf w r)) :=
  ⟨fun w c d r u ht hrid hre hun hue hcur hhas hopen =>
      join_delivers w c d r u ht hrid hre hun hue hcur hhas hopen,
   fun tr r w hs hnc hp => hist_fold r tr w hs hnc hp⟩

/-- Witness for C2: after a draw, a clear and a text event, the stored
history of room z is exactly the fold of those three events (the one shape
recorded after the clear), and a joining connection receives it in its
user_joined envelope. -/
theorem replay_correct_witness :
    histOf (run (run World.init [.connect 0,
        .msg 0 (.parsed ⟨some "create_room", some "z", some "carol", none, ""⟩)])
        [.msg 0 (.parsed ⟨some "draw", some "z", none, none, "p1"⟩),
         .msg 0 (.parsed ⟨some "clear", some "z", none, none, ""⟩),
         .msg 0 (.parsed ⟨some "text", some "z", none, none, "p2"⟩)]) "z"
      = (drawMsgsFor [.msg 0 (.parsed ⟨some "draw", some "z", none, none, "p1"⟩),
         .msg 0 (.parsed ⟨some "clear", some "z", none, none, ""⟩),
         .msg 0 (.parsed ⟨some "text", some "z", none, none, "p2"⟩)] "z").foldl histStep
          (histOf (run World.init [.connect 0,
            .msg 0 (.parsed ⟨some "create_room", some "z", some "carol", none, ""⟩)]) "z")
    ∧ (1, OutMsg.userJoined
          (histOf (run World.init [.connect 0,
            .msg 0 (.parsed ⟨some "create_room", some "z", some "carol", none, ""⟩),
            .msg 0 (.parsed ⟨some "draw", some "z", none, none, "p1"⟩),
            .connect 1]) "z")
          ["carol", "dave"] "dave" "z" 2 ("dave" ++ " joined the room: " ++ "z"))
        ∈ (onMessage (run World.init [.connect 0,
            .msg 0 (.parsed ⟨some "create_room", some "z", some "carol", none, ""⟩),
            .msg 0 (.parsed ⟨some "draw", some "z", none, none, "p1"⟩),
            .connect 1]) 1
            (.parsed ⟨some "join_room", some "z", some "dave", none, ""⟩)).out := by
  constructor
  · exact replay_correct.2
      [.msg 0 (.parsed ⟨some "draw", some "z", none, none, "p1"⟩),
       .msg 0 (.parsed ⟨some "clear", some "z", none, none, ""⟩),
       .msg 0 (.parsed ⟨some "text", some "z", none, none, "p2"⟩)] "z"
      (run World.init [.connect 0,
        .msg 0 (.parsed ⟨some "create_room", some "z", some "carol", none, ""⟩)])
      (sync_run [.connect 0,
        .msg 0 (.parsed ⟨some "create_room", some "z", some "carol", none, ""⟩)]
        World.init sync_init)
      (by decide) (by decide)
  · exact replay_correct.1 (run World.init [.connect 0,
        .msg 0 (.parsed ⟨some "create_room", some "z", some "carol", none, ""⟩),
        .msg 0 (.parsed ⟨some "draw", some "z", none, none, "p1"⟩),
        .connect 1]) 1
      ⟨some "join_room", some "z", some "dave", none, ""⟩ "z" "dave"
      rfl rfl rfl rfl rfl rfl rfl (by decide)

/-! ### Claim C1: the single-room invariant. -/

/-- What leaveRoom can do to the rooms map: nothing (and then the named room
has no entry), delete the departed room, or shrink its member set by the
departing connection. -/
theorem leave_rooms_cases (w : World) (c : ConnId) (cur : Option RoomId)
    (u : Option String) (hsync : ∀ k, ahas w.rooms k = ahas w.users k) :
    ((leaveRoom w c cur u).rooms = w.rooms ∧ mget w.rooms cur = none)
    ∨ (∃ r ms0, cur = some r ∧ aget w.rooms r = some ms0 ∧
        ((leaveRoom w c cur u).rooms = adel w.rooms r
         ∨ (leaveRoom w c cur u).rooms = aset w.rooms r (ms0.erase c))) := by
  cases cur with
  | none => exact Or.inl ⟨rfl, rfl⟩
  | some r =>
    cases hr : aget w.rooms r with
    | none =>
      refine Or.inl ⟨?_, hr⟩
      simp only [leaveRoom, hr]
    | some ms0 =>
      cases hu : aget w.users r with
      | none =>
        exfalso
        have h1 : ahas w.rooms r = true := by simp [ahas, hr]
        have h2 : ahas w.users r = false := by simp [ahas, hu]
        rw [hsync r, h2] at h1
        exact Bool.noConfusion h1
      | some us0 =>
        refine Or.inr ⟨r, ms0, rfl, hr, ?_⟩
        by_cases hcond : (ms0.erase c).length = 0 ∧ (eraseUserOpt us0 u).length = 0
        · refine Or.inl ?_
          simp only [leaveRoom, hr, hu]
          rw [if_pos hcond]
        · refine Or.inr ?_
          simp only [leaveRoom, hr, hu]
          rw [if_neg hcond, bcx_rooms]

/-- After the leave-if-in-a-room step of create_room/join_room handling, the
acting connection is in no member set, memberships have only shrunk, and the
sessions are untouched. -/
theorem w1_clean (live used : List ConnId) (w : World) (c : ConnId)
    (h : Inv live used w) :
    (∀ r ms, aget ((if truthyS (sessOf w c).currentRoom then
        leaveRoom w c (sessOf w c).currentRoom (sessOf w c).username else w)).rooms r
        = some ms → c ∉ ms)
    ∧ (∀ r ms, aget ((if truthyS (sessOf w c).currentRoom then
        leaveRoom w c (sessOf w c).currentRoom (sessOf w c).username else w)).rooms r
        = some ms → ∃ ms0, aget w.rooms r = some ms0 ∧ List.Sublist ms ms0)
    ∧ ((if truthyS (sessOf w c).currentRoom then
        leaveRoom w c (sessOf w c).currentRoom (sessOf w c).username else w)).sess
        = w.sess := by
  by_cases htr : truthyS (sessOf w c).currentRoom = true
  · rw [if_pos htr]
    rcases leave_rooms_cases w c (sessOf w c).currentRoom (sessOf w c).username
        (fun k => (h.syncw k).1) with ⟨heq, hnone⟩ | ⟨r0, ms0, hcur, hms0, hdel | hset⟩
    · refine ⟨?_, ?_, leave_sess w c _ _⟩
      · intro r ms hms hc
        have e := h.mem_cur r ms c (by rw [← heq]; exact hms) hc
        rw [e] at hnone
        simp only [mget] at hnone
        rw [← heq, hms] at hnone
        exact Option.noConfusion hnone
      · intro r ms hms
        exact ⟨ms, by rw [← heq]; exact hms, List.Sublist.refl ms⟩
    · refine ⟨?_, ?_, leave_sess w c _ _⟩
      · intro r ms hms hc
        rw [hdel, aget_adel] at hms
        by_cases hrr : r0 = r
        · rw [if_pos hrr] at hms
          exact Option.noConfusion hms
        · rw [if_neg hrr] at hms
          have e := h.mem_cur r ms c hms hc
          rw [hcur] at e
          exact hrr (Option.some.inj e)
      · intro r ms hms
        rw [hdel, aget_adel] at hms
        by_cases hrr : r0 = r
        · rw [if_pos hrr] at hms
          exact Option.noConfusion hms
        · rw [if_neg hrr] at hms
          exact ⟨ms, hms, List.Sublist.refl ms⟩
    · refine ⟨?_, ?_, leave_sess w c _ _⟩
      · intro r ms hms hc
        rw [hset, aget_aset] at hms
        by_cases hrr : r0 = r
        · rw [if_pos hrr] at hms
          have hnd := h.mem_nodup r0 ms0 hms0
          have : c ∈ ms0.erase c := by rw [Option.some.inj hms]; exact hc
          exact absurd rfl ((hnd.mem_erase_iff.mp this).1)
        · rw [if_neg hrr] at hms
          have e := h.mem_cur r ms c hms hc
          rw [hcur] at e
          exact hrr (Option.some.inj e)
      · intro r ms hms
        rw [hset, aget_aset] at hms
        by_cases hrr : r0 = r
        · rw [if_pos hrr] at hms
          rw [hrr] at hms0
          refine ⟨ms0, hms0, ?_⟩
          rw [← Option.some.inj hms]
          exact List.erase_sublist c ms0
        · rw [if_neg hrr] at hms
          exact ⟨ms, hms, List.Sublist.refl ms⟩
  · rw [if_neg htr]
    refine ⟨?_, ?_, rfl⟩
    · intro r ms hms hc
      have e := h.mem_cur r ms c hms hc
      have hne := h.room_ne r ms hms
      rw [e] at htr
      simp [truthyS, hne] at htr
    · intro r ms hms
      exact ⟨ms, hms, List.Sublist.refl ms⟩

/-- What handleCreateRoom can do to the rooms map: nothing, or create the
named fresh room with the acting connection as sole member. -/
theorem hcr_cases (w : World) (c : ConnId) (cur : Option RoomId) (u : Option String) :
    ((handleCreateRoom w c cur u).rooms = w.rooms)
    ∨ (∃ r un, cur = some r ∧ u = some un ∧ r.isEmpty = false ∧ un.isEmpty = false ∧
        ahas w.rooms r = false ∧
        (handleCreateRoom w c cur u).rooms = aset (aset w.rooms r []) r [c]) := by
  cases cur with
  | none => exact Or.inl rfl
  | some r =>
    cases u with
    | none => exact Or.inl rfl
    | some un =>
      by_cases he : (r.isEmpty || un.isEmpty) = true
      · refine Or.inl ?_
        simp only [handleCreateRoom]
        rw [if_pos he]
        rfl
      · rw [Bool.or_eq_true] at he
        push_neg at he
        have hre : r.isEmpty = false := by
          cases hg : r.isEmpty
          · rfl
          · exact absurd hg he.1
        have hue : un.isEmpty = false := by
          cases hg : un.isEmpty
          · rfl
          · exact absurd hg he.2
        by_cases hhas : ahas w.rooms r = true
        · refine Or.inl ?_
          have e : handleCreateRoom w c (some r) (some un)
              = sendTo w c (.roomAlreadyExist r (r ++ " already existed...")) := by
            simp [handleCreateRoom, hre, hue, hhas]
          rw [e]
          rfl
        · have hhas2 : ahas w.rooms r = false := by
            cases hg : ahas w.rooms r
            · rfl
            · exact absurd hg hhas
          refine Or.inr ⟨r, un, rfl, rfl, hre, hue, hhas2, ?_⟩
          have e : handleCreateRoom w c (some r) (some un)
              = addUserToRoom
                  { w with
                      rooms := aset w.rooms r [],
                      users := aset w.users r [],
                      drawings := aset w.drawings r [] }
                  c r un := by
            simp [handleCreateRoom, hre, hue, hhas2]
          rw [e, addUser_rooms]
          simp [aget_aset_self, sadd]

/-- What handleJoinRoom can do to the rooms map: nothing, or add the acting
connection to the named existing room's member set. -/
theorem hjr_cases (w : World) (c : ConnId) (cur : Option RoomId) (u : Option String) :
    ((handleJoinRoom w c cur u).rooms = w.rooms)
    ∨ (∃ r un ms0, cur = some r ∧ u = some un ∧ r.isEmpty = false ∧ un.isEmpty = false ∧
        aget w.rooms r = some ms0 ∧
        (handleJoinRoom w c cur u).rooms = aset w.rooms r (sadd ms0 c)) := by
  cases cur with
  | none => exact Or.inl rfl
  | some r =>
    cases u with
    | none => exact Or.inl rfl
    | some un =>
      by_cases he : (r.isEmpty || un.isEmpty) = true
      · refine Or.inl ?_
        simp only [handleJoinRoom]
        rw [if_pos he]
        rfl
      · rw [Bool.or_eq_true] at he
        push_neg at he
        have hre : r.isEmpty = false := by
          cases hg : r.isEmpty
          · rfl
          · exact absurd hg he.1
        have hue : un.isEmpty = false := by
          cases hg : un.isEmpty
          · rfl
          · exact absurd hg he.2
        by_cases hhas : ahas w.rooms r = true
        · obtain ⟨ms0, hms0⟩ : ∃ ms0, aget w.rooms r = some ms0 :=
            Option.isSome_iff_exists.mp hhas
          refine Or.inr ⟨r, un, ms0, rfl, rfl, hre, hue, hms0, ?_⟩
          have e : handleJoinRoom w c (some r) (some un) = addUserToRoom w c r un := by
            simp [handleJoinRoom, hre, hue, hhas]
          rw [e, addUser_rooms, hms0]
          rfl
        · have hhas2 : ahas w.rooms r = false := by
            cases hg : ahas w.rooms r
            · rfl
            · exact absurd hg hhas
          refine Or.inl ?_
          have e : handleJoinRoom w c (some r) (some un)
              = sendTo w c (.noRoom ("Room " ++ r ++ " does not exist")) := by
            simp [handleJoinRoom, hre, hue, hhas2]
          rw [e]
          rfl

theorem sessOf_congr {w w' : World} (h : w'.sess = w.sess) (c : ConnId) :
    sessOf w' c = sessOf w c := by
  rw [sessOf, sessOf, h]

/-- Let-free form of the create_room dispatch. -/
theorem onMessage_create2 (w : World) (c : ConnId) (d : Data)
    (h : d.type = some "create_room") :
    onMessage w c (.parsed d) =
      setSess (handleCreateRoom
          (if truthyS (sessOf w c).currentRoom then
            leaveRoom w c (sessOf w c).currentRoom (sessOf w c).username else w)
          c
          (if truthyS d.roomId && truthyS d.username then
            Sess.mk d.roomId d.username else sessOf w c).currentRoom
          (if truthyS d.roomId && truthyS d.username then
            Sess.mk d.roomId d.username else sessOf w c).username)
        c
        (if truthyS d.roomId && truthyS d.username then
          Sess.mk d.roomId d.username else sessOf w c) := by
  rw [onMessage_create w c d h]

/-- Let-free form of the join_room dispatch. -/
theorem onMessage_join2 (w : World) (c : ConnId) (d : Data)
    (h : d.type = some "join_room") :
    onMessage w c (.parsed d) =
      setSess (handleJoinRoom
          (if truthyS (sessOf w c).currentRoom then
            leaveRoom w c (sessOf w c).currentRoom (sessOf w c).username else w)
          c
          (if truthyS d.roomId && truthyS d.username then
            Sess.mk d.roomId d.username else sessOf w c).currentRoom
          (if truthyS d.roomId && truthyS d.username then
            Sess.mk d.roomId d.username else sessOf w c).username)
        c
        (if truthyS d.roomId && truthyS d.username then
          Sess.mk d.roomId d.username else sessOf w c) := by
  rw [onMessage_join w c d h]

/-- The invariant survives a connection being established. -/
theorem inv_connect (live used : List ConnId) (w : World) (c : ConnId)
    (h : Inv live used w) (hcf : used.contains c = false) :
    Inv (c :: live) (c :: used) (onConnect w c) := by
  have hcnotused : c ∉ used := by simpa using hcf
  refine ⟨?_, ?_, ?_, ?_, ?_, ?_⟩
  · intro r ms c2 hms hc2
    exact List.mem_cons_of_mem c (h.mem_live r ms c2 hms hc2)
  · intro r ms c2 hms hc2
    have hlive := h.mem_live r ms c2 hms hc2
    have hne : c ≠ c2 := fun he => hcnotused (he ▸ h.live_sub c2 hlive)
    have e : sessOf (onConnect w c) c2 = sessOf w c2 := by
      rw [sessOf, sessOf]
      show (aget (aset w.sess c ⟨none, none⟩) c2).getD ⟨none, none⟩ = _
      rw [aget_aset_ne _ _ hne]
    rw [e]
    exact h.mem_cur r ms c2 hms hc2
  · exact h.room_ne
  · exact h.mem_nodup
  · exact sync_congr rfl rfl rfl h.syncw
  · intro c2 hc2
    rcases List.mem_cons.mp hc2 with rfl | hmem
    · exact List.mem_cons_self c2 used
    · exact List.mem_cons_of_mem c (h.live_sub c2 hmem)

/-- The invariant survives a connection closing (the close handler leaves
the current room, removing the connection's one membership). -/
theorem inv_close (live used : List ConnId) (w : World) (c : ConnId)
    (h : Inv live used w) : Inv (live.erase c) used (onClose w c) := by
  obtain ⟨P1, P2, P3⟩ := w1_clean live used w c h
  have hsynF : Sync (onClose w c) := sync_step w (.close c) h.syncw
  have hsess : (onClose w c).sess = adel w.sess c := by
    simp only [onClose]
    rw [P3]
  refine ⟨?_, ?_, ?_, ?_, hsynF, ?_⟩
  · intro r ms c2 hms hc2
    obtain ⟨ms0, hms0, hsub⟩ := P2 r ms hms
    have hl := h.mem_live r ms0 c2 hms0 (hsub.subset hc2)
    have hne : c2 ≠ c := fun he => P1 r ms hms (he ▸ hc2)
    exact (List.mem_erase_of_ne hne).mpr hl
  · intro r ms c2 hms hc2
    have hne : c2 ≠ c := fun he => P1 r ms hms (he ▸ hc2)
    obtain ⟨ms0, hms0, hsub⟩ := P2 r ms hms
    have e : sessOf (onClose w c) c2 = sessOf w c2 := by
      rw [sessOf, sessOf, hsess, aget_adel]
      rw [if_neg (fun hh => hne hh.symm)]
    rw [e]
    exact h.mem_cur r ms0 c2 hms0 (hsub.subset hc2)
  · intro r ms hms
    obtain ⟨ms0, hms0, _⟩ := P2 r ms hms
    exact h.room_ne r ms0 hms0
  · intro r ms hms
    obtain ⟨ms0, hms0, hsub⟩ := P2 r ms hms
    exact (h.mem_nodup r ms0 hms0).sublist hsub
  · intro c2 hc2
    exact h.live_sub c2 (List.mem_of_mem_erase hc2)

/-- The invariant survives a create_room or join_room message: the handler
leaves the old room first, so the acting connection ends up a member of at
most the one room its refreshed session points at. -/
theorem inv_msg (live used : List ConnId) (w : World) (c : ConnId) (d : Data)
    (h : Inv live used w) (hcl : c ∈ live)
    (hd : d.type = some "create_room" ∨ d.type = some "join_room") :
    Inv live used (onMessage w c (.parsed d)) := by
  obtain ⟨P1, P2, P3⟩ := w1_clean live used w c h
  have hsynF : Sync (onMessage w c (.parsed d)) :=
    sync_onMessage w c (.parsed d) h.syncw
  rcases hd with h1 | h1
  · rw [onMessage_create2 w c d h1] at hsynF ⊢
    set W1 := (if truthyS (sessOf w c).currentRoom then
        leaveRoom w c (sessOf w c).currentRoom (sessOf w c).username else w) with hW1
    set S1 := (if truthyS d.roomId && truthyS d.username then
        Sess.mk d.roomId d.username else sessOf w c) with hS1
    have hXsess : (handleCreateRoom W1 c S1.currentRoom S1.username).sess = w.sess := by
      rw [hcr_sess, P3]
    have hother : ∀ c2, c2 ≠ c →
        sessOf (setSess (handleCreateRoom W1 c S1.currentRoom S1.username) c S1) c2
          = sessOf w c2 := by
      intro c2 hne
      rw [sessOf_setSess_ne _ _ (fun he => hne he.symm), sessOf_congr hXsess]
    rcases hcr_cases W1 c S1.currentRoom S1.username with hrEq |
        ⟨rN, uN, hcurN, huN, hreN, hueN, hhasN, hrNew⟩
    · have hrooms : (setSess (handleCreateRoom W1 c S1.currentRoom S1.username)
          c S1).rooms = W1.rooms := by
        rw [setSess_rooms, hrEq]
      refine ⟨?_, ?_, ?_, ?_, hsynF, h.live_sub⟩
      · intro r ms c2 hms hc2
        rw [hrooms] at hms
        obtain ⟨ms0, hms0, hsub⟩ := P2 r ms hms
        exact h.mem_live r ms0 c2 hms0 (hsub.subset hc2)
      · intro r ms c2 hms hc2
        rw [hrooms] at hms
        have hne : c2 ≠ c := fun he => P1 r ms hms (he ▸ hc2)
        obtain ⟨ms0, hms0, hsub⟩ := P2 r ms hms
        rw [hother c2 hne]
        exact h.mem_cur r ms0 c2 hms0 (hsub.subset hc2)
      · intro r ms hms
        rw [hrooms] at hms
        obtain ⟨ms0, hms0, _⟩ := P2 r ms hms
        exact h.room_ne r ms0 hms0
      · intro r ms hms
        rw [hrooms] at hms
        obtain ⟨ms0, hms0, hsub⟩ := P2 r ms hms
        exact (h.mem_nodup r ms0 hms0).sublist hsub
    · have hrooms : (setSess (handleCreateRoom W1 c S1.currentRoom S1.username)
          c S1).rooms = aset (aset W1.rooms rN []) rN [c] := by
        rw [setSess_rooms, hrNew]
      refine ⟨?_, ?_, ?_, ?_, hsynF, h.live_sub⟩
      · intro r ms c2 hms hc2
        rw [hrooms, aget_aset] at hms
        by_cases hrr : rN = r
        · rw [if_pos hrr] at hms
          rw [← Option.some.inj hms] at hc2
          rw [List.mem_singleton.mp hc2]
          exact hcl
        · rw [if_neg hrr, aget_aset_ne _ _ hrr] at hms
          obtain ⟨ms0, hms0, hsub⟩ := P2 r ms hms
          exact h.mem_live r ms0 c2 hms0 (hsub.subset hc2)
      · intro r ms c2 hms hc2
        rw [hrooms, aget_aset] at hms
        by_cases hrr : rN = r
        · rw [if_pos hrr] at hms
          rw [← Option.some.inj hms] at hc2
          rw [List.mem_singleton.mp hc2, sessOf_setSess, ← hrr]
          exact hcurN
        · rw [if_neg hrr, aget_aset_ne _ _ hrr] at hms
          have hne : c2 ≠ c := fun he => P1 r ms hms (he ▸ hc2)
          obtain ⟨ms0, hms0, hsub⟩ := P2 r ms hms
          rw [hother c2 hne]
          exact h.mem_cur r ms0 c2 hms0 (hsub.subset hc2)
      · intro r ms hms
        rw [hrooms, aget_aset] at hms
        by_cases hrr : rN = r
        · rw [← hrr]
          exact hreN
        · rw [if_neg hrr, aget_aset_ne _ _ hrr] at hms
          obtain ⟨ms0, hms0, _⟩ := P2 r ms hms
          exact h.room_ne r ms0 hms0
      · intro r ms hms
        rw [hrooms, aget_aset] at hms
        by_cases hrr : rN = r
        · rw [if_pos hrr] at hms
          rw [← Option.some.inj hms]
          exact List.nodup_singleton c
        · rw [if_neg hrr, aget_aset_ne _ _ hrr] at hms
          obtain ⟨ms0, hms0, hsub⟩ := P2 r ms hms
          exact (h.mem_nodup r ms0 hms0).sublist hsub
  · rw [onMessage_join2 w c d h1] at hsynF ⊢
    set W1 := (if truthyS (sessOf w c).currentRoom then
        leaveRoom w c (sessOf w c).currentRoom (sessOf w c).username else w) with hW1
    set S1 := (if truthyS d.roomId && truthyS d.username then
        Sess.mk d.roomId d.username else sessOf w c) with hS1
    have hXsess : (handleJoinRoom W1 c S1.currentRoom S1.username).sess = w.sess := by
      rw [hjr_sess, P3]
    have hother : ∀ c2, c2 ≠ c →
        sessOf (setSess (handleJoinRoom W1 c S1.currentRoom S1.username) c S1) c2
          = sessOf w c2 := by
      intro c2 hne
      rw [sessOf_setSess_ne _ _ (fun he => hne he.symm), sessOf_congr hXsess]
    rcases hjr_cases W1 c S1.currentRoom S1.username with hrEq |
        ⟨rN, uN, msN, hcurN, huN, hreN, hueN, hmsN, hrNew⟩
    · have hrooms : (setSess (handleJoinRoom W1 c S1.currentRoom S1.username)
          c S1).rooms = W1.rooms := by
        rw [setSess_rooms, hrEq]
      refine ⟨?_, ?_, ?_, ?_, hsynF, h.live_sub⟩
      · intro r ms c2 hms hc2
        rw [hrooms] at hms
        obtain ⟨ms0, hms0, hsub⟩ := P2 r ms hms
        exact h.mem_live r ms0 c2 hms0 (hsub.subset hc2)
      · intro r ms c2 hms hc2
        rw [hrooms] at hms
        have hne : c2 ≠ c := fun he => P1 r ms hms (he ▸ hc2)
        obtain ⟨ms0, hms0, hsub⟩ := P2 r ms hms
        rw [hother c2 hne]
        exact h.mem_cur r ms0 c2 hms0 (hsub.subset hc2)
      · intro r ms hms
        rw [hrooms] at hms
        obtain ⟨ms0, hms0, _⟩ := P2 r ms hms
        exact h.room_ne r ms0 hms0
      · intro r ms hms
        rw [hrooms] at hms
        obtain ⟨ms0, hms0, hsub⟩ := P2 r ms hms
        exact (h.mem_nodup r ms0 hms0).sublist hsub
    · have hrooms : (setSess (handleJoinRoom W1 c S1.currentRoom S1.username)
          c S1).rooms = aset W1.rooms rN (sadd msN c) := by
        rw [setSess_rooms, hrNew]
      obtain ⟨msN0, hmsN0, hsubN⟩ := P2 rN msN hmsN
      refine ⟨?_, ?_, ?_, ?_, hsynF, h.live_sub⟩
      · intro r ms c2 hms hc2
        rw [hrooms, aget_aset] at hms
        by_cases hrr : rN = r
        · rw [if_pos hrr] at hms
          rw [← Option.some.inj hms] at hc2
          rcases (mem_sadd msN c c2).mp hc2 with hmem | rfl
          · exact h.mem_live rN msN0 c2 hmsN0 (hsubN.subset hmem)
          · exact hcl
        · rw [if_neg hrr] at hms
          obtain ⟨ms0, hms0, hsub⟩ := P2 r ms hms
          exact h.mem_live r ms0 c2 hms0 (hsub.subset hc2)
      · intro r ms c2 hms hc2
        rw [hrooms, aget_aset] at hms
        by_cases hrr : rN = r
        · rw [if_pos hrr] at hms
          rw [← Option.some.inj hms] at hc2
          by_cases hne : c2 = c
          · rw [hne, sessOf_setSess, ← hrr]
            exact hcurN
          · rcases (mem_sadd msN c c2).mp hc2 with hmem | he
            · rw [hother c2 hne]
              rw [← hrr]
              exact h.mem_cur rN msN0 c2 hmsN0 (hsubN.subset hmem)
            · exact absurd he hne
        · rw [if_neg hrr] at hms
          have hne : c2 ≠ c := fun he => P1 r ms hms (he ▸ hc2)
          obtain ⟨ms0, hms0, hsub⟩ := P2 r ms hms
          rw [hother c2 hne]
          exact h.mem_cur r ms0 c2 hms0 (hsub.subset hc2)
      · intro r ms hms
        rw [hrooms, aget_aset] at hms
        by_cases hrr : rN = r
        · rw [← hrr]
          exact hreN
        · rw [if_neg hrr] at hms
          obtain ⟨ms0, hms0, _⟩ := P2 r ms hms
          exact h.room_ne r ms0 hms0
      · intro r ms hms
        rw [hrooms, aget_aset] at hms
        by_cases hrr : rN = r
        · rw [if_pos hrr] at hms
          rw [← Option.some.inj hms]
          exact sadd_nodup msN c ((h.mem_nodup rN msN0 hmsN0).sublist hsubN)
        · rw [if_neg hrr] at hms
          obtain ⟨ms0, hms0, hsub⟩ := P2 r ms hms
          exact (h.mem_nodup r ms0 hms0).sublist hsub

theorem inv_init : Inv [] [] World.init := by
  refine ⟨?_, ?_, ?_, ?_, sync_init, ?_⟩
  · intro r ms c hms _
    exact Option.noConfusion hms
  · intro r ms c hms _
    exact Option.noConfusion hms
  · intro r ms hms
    exact Option.noConfusion hms
  · intro r ms hms
    exact Option.noConfusion hms
  · intro c hc
    exact absurd hc (List.not_mem_nil c)

theorem inv_run (tr : List Event) : ∀ live used w, Inv live used w →
    wfAux live used tr = true → (∀ e ∈ tr, roomEvent e = true) →
    ∃ live2 used2, Inv live2 used2 (run w tr) := by
  induction tr with
  | nil =>
    intro live used w h _ _
    exact ⟨live, used, h⟩
  | cons e tr ih =>
    intro live used w h hwf hev
    have hevtail : ∀ e2 ∈ tr, roomEvent e2 = true :=
      fun e2 he2 => hev e2 (List.mem_cons_of_mem _ he2)
    cases e with
    | connect c =>
      simp only [wfAux, Bool.and_eq_true] at hwf
      have hcf : used.contains c = false := by
        cases hg : used.contains c
        · rfl
        · rw [hg] at hwf
          simp at hwf
      exact ih (c :: live) (c :: used) (onConnect w c)
        (inv_connect live used w c h hcf) hwf.2 hevtail
    | msg c m =>
      simp only [wfAux, Bool.and_eq_true] at hwf
      have hre := hev _ (List.mem_cons_self _ _)
      rcases m with _ | d
      · rw [roomEvent] at hre
        exact Bool.noConfusion hre
      · have hd : d.type = some "create_room" ∨ d.type = some "join_room" := by
          rw [roomEvent, Bool.or_eq_true] at hre
          rcases hre with h9 | h9
          · exact Or.inl (by simpa using h9)
          · exact Or.inr (by simpa using h9)
        have hc2 : c ∈ live := by simpa using hwf.1
        exact ih live used _ (inv_msg live used w c d h hc2 hd) hwf.2 hevtail
    | close c =>
      simp only [wfAux, Bool.and_eq_true] at hwf
      exact ih (live.erase c) used (onClose w c) (inv_close live used w c h)
        hwf.2 hevtail

/-- C1 counterexample: the claim quantifies over all inbound messages, but a
chat message overwrites the session's current room without touching
membership, so a later create_room skips the leave of the real room: after
create r1, chat with no roomId, create r2, connection 0 is in the member
sets of both r1 and r2. -/
theorem single_room_cex :
    ¬ inAtMostOneRoom (run World.init [.connect 0,
        .msg 0 (.parsed ⟨some "create_room", some "r1", some "alice", none, ""⟩),
        .msg 0 (.parsed ⟨some "chat", none, none, some "hi", ""⟩),
        .msg 0 (.parsed ⟨some "create_room", some "r2", some "alice", none, ""⟩)]) 0 := by
  intro h
  have h12 := h "r1" "r2" ⟨[0], rfl, List.mem_singleton.mpr rfl⟩
    ⟨[0], rfl, List.mem_singleton.mpr rfl⟩
  exact absurd h12 (by decide)

/-- C1 (amended): over well-formed traces whose message events are all
create_room or join_room (the room-management protocol the spec sentence
quantifies over), every connection is a member of at most one room after
every handler completes.  The chat/draw/shape handlers break the invariant
by overwriting the session room id, as the counterexample shows. -/
theorem single_room (tr : List Event) (hwf : wfAux [] [] tr = true)
    (hev : ∀ e ∈ tr, roomEvent e = true) (c : ConnId) :
    inAtMostOneRoom (run World.init tr) c := by
  obtain ⟨live2, used2, hInv⟩ := inv_run tr [] [] World.init inv_init hwf hev
  intro r1 r2 hm1 hm2
  obtain ⟨ms1, h1, hc1⟩ := hm1
  obtain ⟨ms2, h2, hc2⟩ := hm2
  have e1 := hInv.mem_cur r1 ms1 c h1 hc1
  have e2 := hInv.mem_cur r2 ms2 c h2 hc2
  exact Option.some.inj (e1.symm.trans e2)

/-- Witness for C1 (amended): a create, a join by a second connection and a
close, after which each connection is in at most one room.  The prefix
property follows since every prefix of a well-formed room-event trace is
one. -/
theorem single_room_witness :
    inAtMostOneRoom (run World.init [.connect 0,
      .msg 0 (.parsed ⟨some "create_room", some "w1", some "eve", none, ""⟩),
      .connect 1,
      .msg 1 (.parsed ⟨some "join_room", some "w1", some "frank", none, ""⟩),
      .close 0]) 1 :=
  single_room [.connect 0,
      .msg 0 (.parsed ⟨some "create_room", some "w1", some "eve", none, ""⟩),
      .connect 1,
      .msg 1 (.parsed ⟨some "join_room", some "w1", some "frank", none, ""⟩),
      .close 0] (by decide) (by decide) 1

end Whiteboard
